import Mathlib

/-!
Verification of the MetaDreams PNG-metadata tool (`metadreams.py`).

The repository holds two variants of the program:
  * `src/src/metadreams.py` (v.1.0): the current implementation with the
    recursive folder tree (`create_folder_element`), the lowercase `dream`
    lookup in `get_all_prompts`, and a `create_dreams_file` without an
    existence check.
  * `src/Python/metadreams.py` (v.0.6.1): the older flat implementation,
    modelled here in the `Legacy` namespace where its behaviour differs.

The embedding is shallow and executable:
  * the filesystem is a tree of `FsEntry` values; a PNG file carries an
    `Option PngData` (`none` models a file `PIL.Image.open` fails on);
  * XML element trees (`xml.etree.ElementTree`) are the inductive `Element`;
    writing and re-parsing the XML file is modelled as the identity on the
    element tree, and the pretty printer `minidom.toprettyxml` is modelled
    by `renderElement`;
  * fallible code (an uncaught `json.JSONDecodeError`, `AttributeError` or
    `TypeError` propagating out of a function) is modelled with `Option`,
    `none` meaning the exception escapes the modelled function;
  * Python stdlib helpers (`json.loads`, `str`, `str.replace`,
    `str.endswith`, `str.lower`, `os.path.join/basename/dirname`) are
    modelled below to the extent this program exercises them; `json_loads`
    covers the JSON fragment without floats or `\u` escapes (inputs using
    those make the model fail where Python would succeed, which only
    strengthens the hypotheses of the theorems), and `pyStr`/`pyRepr`
    follow Python `str`/`repr` on JSON-decoded values.
-/

/-- Lowercase a single ASCII character, as Python `str.lower` does on ASCII. -/
def lowerChar (c : Char) : Char :=
  if 'A' ≤ c ∧ c ≤ 'Z' then Char.ofNat (c.toNat + 32) else c

/-- Python `str.lower`, restricted to ASCII (all tag and key material here is ASCII). -/
def sLower (s : String) : String := ⟨s.data.map lowerChar⟩

/-- Python `str.endswith`. -/
def sEndsWith (s t : String) : Bool := t.data.isSuffixOf s.data

/-- Replacement loop of Python `str.replace`: non-overlapping, left to right.
The fuel argument is the length of the remaining text; each step consumes at
least one character, so the initial fuel is always enough. -/
def replaceAux (pat rep : List Char) : Nat → List Char → List Char
  | _, [] => []
  | 0, s => s
  | fuel + 1, c :: cs =>
      if pat.isPrefixOf (c :: cs) then rep ++ replaceAux pat rep fuel ((c :: cs).drop pat.length)
      else c :: replaceAux pat rep fuel cs

/-- Python `s.replace(old, new)`. All call sites in the program use a
non-empty `old`, so the empty-pattern case just returns `s`. -/
def strReplace (s old new : String) : String :=
  if old.data.isEmpty then s
  else ⟨replaceAux old.data new.data s.data.length s.data⟩

/-- POSIX `os.path.basename`: the part after the last slash. -/
def basename (p : String) : String :=
  ⟨(p.data.reverse.takeWhile (fun c => c ≠ '/')).reverse⟩

/-- POSIX `os.path.dirname`: everything before the last slash, with trailing
slashes stripped unless the head is all slashes. -/
def dirname (p : String) : String :=
  let cs := p.data
  let tail := cs.reverse.takeWhile (fun c => c ≠ '/')
  if tail.length = cs.length then ""
  else
    let head := cs.take (cs.length - tail.length)
    if head.all (fun c => c = '/') then ⟨head⟩
    else ⟨(head.reverse.dropWhile (fun c => c = '/')).reverse⟩

/-- POSIX `os.path.join` for two components. -/
def pathJoin (a b : String) : String :=
  if b.data.head? = some '/' then b
  else if a = "" then b
  else if a.data.getLast? = some '/' then a ++ b
  else a ++ "/" ++ b

/-- JSON values as `json.loads` produces them, with integer numbers only
(see the module comment). Object fields keep document order, as Python
dicts do. -/
inductive Json where
  | null
  | bool (b : Bool)
  | num (n : Int)
  | str (s : String)
  | arr (elems : List Json)
  | obj (fields : List (String × Json))

/-- Whitespace characters `json.loads` skips between tokens. -/
def isJsonWs (c : Char) : Bool :=
  c = ' ' ∨ c = '\t' ∨ c = '\n' ∨ c = '\r'

/-- Drop leading JSON whitespace. -/
def skipWs : List Char → List Char
  | [] => []
  | c :: cs => if isJsonWs c then skipWs cs else c :: cs

/-- Translation of a JSON string escape character (after the backslash). -/
def jsonEscapeChar (c : Char) : Option Char :=
  if c = '\x22' then some '\x22'
  else if c = '\\' then some '\\'
  else if c = '/' then some '/'
  else if c = 'n' then some '\n'
  else if c = 't' then some '\t'
  else if c = 'r' then some '\r'
  else if c = 'b' then some (Char.ofNat 8)
  else if c = 'f' then some (Char.ofNat 12)
  else none

/-- Parse the body of a JSON string after the opening quote; returns the
content and the rest of the input after the closing quote. -/
def parseStrBody : List Char → Option (List Char × List Char)
  | [] => none
  | c :: cs =>
    if c = '\x22' then some ([], cs)
    else if c = '\\' then
      match cs with
      | [] => none
      | e :: cs2 =>
        match jsonEscapeChar e, parseStrBody cs2 with
        | some ec, some (s, r) => some (ec :: s, r)
        | _, _ => none
    else
      match parseStrBody cs with
      | some (s, r) => some (c :: s, r)
      | none => none

/-- Accumulate a decimal digit string into a natural number. -/
def digitsToNat (acc : Nat) : List Char → Nat
  | [] => acc
  | c :: cs => digitsToNat (acc * 10 + (c.toNat - 48)) cs

/-- Parse a JSON integer (optional minus sign, then digits). Fractions and
exponents are outside the modelled fragment. -/
def parseNumber (cs : List Char) : Option (Json × List Char) :=
  let (neg, rest) :=
    match cs with
    | c :: r => if c = '-' then (true, r) else (false, cs)
    | [] => (false, cs)
  let ds := rest.takeWhile (fun c => c.isDigit)
  let rest2 := rest.dropWhile (fun c => c.isDigit)
  if ds.isEmpty then none
  else
    let n : Int := Int.ofNat (digitsToNat 0 ds)
    some (Json.num (if neg then -n else n), rest2)

mutual
/-- Parse one JSON value. Fuel bounds the recursion; `json_loads` supplies
more fuel than any input can consume. -/
def parseValue : Nat → List Char → Option (Json × List Char)
  | 0, _ => none
  | fuel + 1, cs =>
    match skipWs cs with
    | [] => none
    | c :: r =>
      if c = 'n' then
        match r with
        | 'u' :: 'l' :: 'l' :: r2 => some (.null, r2)
        | _ => none
      else if c = 't' then
        match r with
        | 'r' :: 'u' :: 'e' :: r2 => some (.bool true, r2)
        | _ => none
      else if c = 'f' then
        match r with
        | 'a' :: 'l' :: 's' :: 'e' :: r2 => some (.bool false, r2)
        | _ => none
      else if c = '\x22' then
        match parseStrBody r with
        | some (s, r2) => some (.str ⟨s⟩, r2)
        | none => none
      else if c = '[' then
        match skipWs r with
        | ']' :: r2 => some (.arr [], r2)
        | _ =>
          match parseItems fuel r with
          | some (vs, r2) => some (.arr vs, r2)
          | none => none
      else if c = '\x7b' then
        match skipWs r with
        | '\x7d' :: r2 => some (.obj [], r2)
        | _ =>
          match parseMembers fuel r with
          | some (ms, r2) => some (.obj ms, r2)
          | none => none
      else parseNumber (c :: r)

/-- Parse the comma-separated items of a non-empty JSON array, up to and
including the closing bracket. -/
def parseItems : Nat → List Char → Option (List Json × List Char)
  | 0, _ => none
  | fuel + 1, cs =>
    match parseValue fuel cs with
    | none => none
    | some (v, r) =>
      match skipWs r with
      | ',' :: r2 =>
        match parseItems fuel r2 with
        | some (vs, r3) => some (v :: vs, r3)
        | none => none
      | ']' :: r2 => some ([v], r2)
      | _ => none

/-- Parse the members of a non-empty JSON object, up to and including the
closing brace. -/
def parseMembers : Nat → List Char → Option (List (String × Json) × List Char)
  | 0, _ => none
  | fuel + 1, cs =>
    match skipWs cs with
    | '\x22' :: r =>
      (match parseStrBody r with
       | none => none
       | some (k, r2) =>
         match skipWs r2 with
         | ':' :: r3 =>
           (match parseValue fuel r3 with
            | none => none
            | some (v, r4) =>
              match skipWs r4 with
              | ',' :: r5 =>
                (match parseMembers fuel r5 with
                 | some (ms, r6) => some ((⟨k⟩, v) :: ms, r6)
                 | none => none)
              | '\x7d' :: r5 => some ([(⟨k⟩, v)], r5)
              | _ => none)
         | _ => none)
    | _ => none
end

/-- Python `json.loads` on the modelled JSON fragment: parse one value and
require only whitespace after it. -/
def json_loads (s : String) : Option Json :=
  match parseValue (2 * s.data.length + 8) s.data with
  | some (j, r) => if (skipWs r).isEmpty then some j else none
  | none => none

/-- Python `repr` of a JSON-decoded value (fuel-indexed; `pyRepr` supplies
sufficient fuel). Strings are shown in single quotes without Python's
escaping of exotic characters, which no value in this program's claims
exercises. -/
def pyReprF : Nat → Json → String
  | _, .null => "None"
  | _, .bool b => if b then "True" else "False"
  | _, .num n => toString n
  | _, .str s => "\x27" ++ s ++ "\x27"
  | 0, _ => ""
  | fuel + 1, .arr xs =>
      "[" ++ String.intercalate ", " (xs.map (pyReprF fuel)) ++ "]"
  | fuel + 1, .obj ms =>
      "\x7b" ++
        String.intercalate ", "
          (ms.map (fun m => "\x27" ++ m.1 ++ "\x27: " ++ pyReprF fuel m.2)) ++
        "\x7d"

mutual
/-- Size of a JSON value, used as fuel for `pyRepr`. -/
def jsize : Json → Nat
  | .null => 1
  | .bool _ => 1
  | .num _ => 1
  | .str _ => 1
  | .arr xs => 1 + jsizeList xs
  | .obj ms => 1 + jsizeFields ms

/-- Combined size of a list of JSON values. -/
def jsizeList : List Json → Nat
  | [] => 0
  | x :: xs => jsize x + jsizeList xs

/-- Combined size of a list of JSON object fields. -/
def jsizeFields : List (String × Json) → Nat
  | [] => 0
  | (_, v) :: ms => jsize v + jsizeFields ms
end

/-- Python `repr` of a JSON-decoded value. -/
def pyRepr (j : Json) : String := pyReprF (jsize j) j

/-- Python `str` of a JSON-decoded value: the string itself for strings,
`repr` otherwise. -/
def pyStr : Json → String
  | .str s => s
  | j => pyRepr j

/-- Python `str` of the 2-tuple `im.size`, e.g. `"(512, 512)"`. -/
def pyTupleStr (s : Nat × Nat) : String :=
  "(" ++ toString s.1 ++ ", " ++ toString s.2 ++ ")"

/-- An `xml.etree.ElementTree` element: tag, attributes in insertion order,
optional text, and child elements in insertion order. -/
inductive Element where
  | mk (tag : String) (attrs : List (String × String)) (text : Option String)
       (children : List Element)

/-- Tag of an element. -/
def Element.tag : Element → String
  | .mk t _ _ _ => t

/-- Attribute list of an element. -/
def Element.attrs : Element → List (String × String)
  | .mk _ a _ _ => a

/-- Text of an element (`None` when never set). -/
def Element.text : Element → Option String
  | .mk _ _ x _ => x

/-- Child elements of an element. -/
def Element.children : Element → List Element
  | .mk _ _ _ cs => cs

/-- Value of an attribute, by key. -/
def Element.attr (e : Element) (k : String) : Option String :=
  (e.attrs.find? (fun a => a.1 == k)).map (fun a => a.2)

/-- The metadata block and pixel size a readable PNG yields: `im.info` as an
ordered key/value mapping of text chunks, and `im.size`. -/
structure PngData where
  info : List (String × String)
  size : Nat × Nat

/-- A filesystem entry as `os.listdir` enumerates it: a regular file (whose
`Option PngData` is `none` when `PIL.Image.open`/decode raises `OSError` on
it) or a directory with its own listing, in listing order. -/
inductive FsEntry where
  | file (name : String) (data : Option PngData)
  | dir (name : String) (entries : List FsEntry)

/-- Model of `process_png_file` (both variants): the Python function returns
`(None, None)` when opening or decoding raises `OSError`, and
`(im.info, im.size)` on success. The file's modelled content stands in for
the path argument. -/
def process_png_file (data : Option PngData) :
    Option (List (String × String)) × Option (Nat × Nat) :=
  match data with
  | none => (none, none)
  | some d => (some d.info, some d.size)

/-- Model of `add_single_element`: the `<key.lower()>value</...>` leaf child
it appends. -/
def add_single_element (key value : String) : Element :=
  Element.mk (sLower key) [] (some value) []

/-- Model of `parse_image_info` (identical in both variants): `None` input
maps to a `None` result; otherwise the value's `str` form has single quotes
replaced by double quotes, then `None` replaced by `null`, and is decoded as
JSON. The outer `none` models the `json.JSONDecodeError` escaping. -/
def parse_image_info : Json → Option (Option Json)
  | .null => some none
  | v =>
    match json_loads (strReplace (strReplace (pyStr v) "\x27" "\x22") "None" "null") with
    | some j => some (some j)
    | none => none

/-- Model of `write_image_info`: the leaf children written for the decoded
`image` dict (none for a `None` dict). A non-dict value makes `.items()`
raise `AttributeError`, modelled as `none`. -/
def write_image_info : Option Json → Option (List Element)
  | none => some []
  | some (.obj fields) => some (fields.map (fun f => add_single_element f.1 (pyStr f.2)))
  | some _ => none

/-- Children contributed by one field of the decoded `sd-metadata` object in
`create_image_element`: the `image` key goes through `parse_image_info` and
`write_image_info`, every other key becomes a leaf with the value's `str`. -/
def sd_field_elems (kv : String × Json) : Option (List Element) :=
  if kv.1 = "image" then
    match parse_image_info kv.2 with
    | some img => write_image_info img
    | none => none
  else some [add_single_element kv.1 (pyStr kv.2)]

/-- Leaf for the user-supplied checkpoint label: Python tests `if ckpt:`, so
`None` and the empty string add nothing (`KEY_CKPT = 'ckpt'`). -/
def ckpt_elems : Option String → List Element
  | some c => if c = "" then [] else [add_single_element "ckpt" c]
  | none => []

/-- Combine per-item element lists, failing when any item fails, as a loop of
appends over a Python iterable does when an iteration can raise. -/
def flatMapOpt {α β : Type} (f : α → Option (List β)) : List α → Option (List β)
  | [] => some []
  | a :: rest =>
    match f a, flatMapOpt f rest with
    | some xs, some ys => some (xs ++ ys)
    | _, _ => none

/-- Children contributed by one entry of `metadata.items()` in
`create_image_element`: the key `"sd-metadata"` is decoded with `json.loads`
(an uncaught failure, or a non-dict result whose `.items()` raises, is
`none`) and becomes a container element; every other key becomes a leaf. -/
def meta_entry_elems (ckpt : Option String) (kv : String × String) : Option (List Element) :=
  if kv.1 = "sd-metadata" then
    match json_loads kv.2 with
    | some (.obj fields) =>
      match flatMapOpt sd_field_elems fields with
      | some inner => some [Element.mk "sd-metadata" [] none (ckpt_elems ckpt ++ inner)]
      | none => none
    | _ => none
  else some [add_single_element kv.1 kv.2]

/-- Model of `create_image_element` (v.1.0): the `<image>` element with the
`filename` attribute, then `path` and `size` leaves, then the flattened
metadata fields; `none` when the uncaught JSON handling raises. -/
def create_image_element (file_path : String) (metadata : List (String × String))
    (size : Nat × Nat) (ckpt : Option String) : Option Element :=
  match flatMapOpt (meta_entry_elems ckpt) metadata with
  | some metaChildren =>
    some (Element.mk "image" [("filename", basename file_path)] none
      (add_single_element "path" file_path ::
        add_single_element "size" (pyTupleStr size) :: metaChildren))
  | none => none

/-- Model of `is_folder_empty`: `len(os.listdir(folder)) == 0`. -/
def is_folder_empty : List FsEntry → Bool
  | [] => true
  | _ :: _ => false

/-- Folder element for a path and already-built children (the element
`create_folder_element` creates before its loop: `KEY_FOLDER = 'folder'`
with `name` and `path` attributes). -/
def folder_element (path : String) (kids : List Element) : Element :=
  Element.mk "folder" [("name", basename path), ("path", path)] none kids

mutual
/-- Elements one loop iteration of `create_folder_element` (v.1.0) appends
for one directory entry: nothing when the (per-iteration, in fact constant)
`is_folder_empty` test says the folder is empty; a recursive folder element
for a subdirectory when recursion is on; an image element for a `.png` file
whose extraction succeeded; nothing otherwise. `none` models an exception
escaping the iteration. -/
def folder_entry_elems (recursive : Bool) (ckpt : Option String) (folder : String)
    (empty : Bool) : FsEntry → Option (List Element)
  | .dir name sub =>
    if empty then some []
    else if recursive then
      match folder_walk recursive ckpt (pathJoin folder name) (is_folder_empty sub) sub with
      | some kids => some [folder_element (pathJoin folder name) kids]
      | none => none
    else some []
  | .file name data =>
    if empty then some []
    else if sEndsWith (pathJoin folder name) ".png" then
      match process_png_file data with
      | (some metadata, some size) =>
        match create_image_element (pathJoin folder name) metadata size ckpt with
        | some e => some [e]
        | none => none
      | _ => some []
    else some []

/-- The loop of `create_folder_element` (v.1.0) over `os.listdir(folder)`,
collecting the appended children in order. -/
def folder_walk (recursive : Bool) (ckpt : Option String) (folder : String)
    (empty : Bool) : List FsEntry → Option (List Element)
  | [] => some []
  | e :: rest =>
    match folder_entry_elems recursive ckpt folder empty e,
          folder_walk recursive ckpt folder empty rest with
    | some here, some cs => some (here ++ cs)
    | _, _ => none
end

/-- Model of `create_folder_element` (v.1.0): the folder element whose
children are produced by the loop over the listing. -/
def create_folder_element (folder : String) (entries : List FsEntry)
    (recursive : Bool) (ckpt : Option String) : Option Element :=
  match folder_walk recursive ckpt folder (is_folder_empty entries) entries with
  | some kids => some (folder_element folder kids)
  | none => none

/-- Version string of the v.1.0 variant (`__version__`). -/
def metadreams_version : String := "v.1.0"

/-- Model of `create_xml_document` (v.1.0): the root `<metadata>` element
with the `software` attribute and the folder tree as its one child. -/
def create_xml_document (folder : String) (entries : List FsEntry)
    (recursive : Bool) (ckpt : Option String) : Option Element :=
  match create_folder_element folder entries recursive ckpt with
  | some fe =>
    some (Element.mk "metadata" [("software", "MetaDreams " ++ metadreams_version)] none [fe])
  | none => none

/-- XML text escaping of `&`, `<`, `>`. -/
def xmlEscapeText (s : String) : String :=
  strReplace (strReplace (strReplace s "&" "&amp;") "<" "&lt;") ">" "&gt;"

/-- XML attribute escaping: text escaping plus the double quote. -/
def xmlEscapeAttr (s : String) : String :=
  strReplace (xmlEscapeText s) "\x22" "&quot;"

/-- Render an attribute list as `key="value"` pairs. -/
def renderAttrs : List (String × String) → String
  | [] => ""
  | (k, v) :: rest => " " ++ k ++ "=\x22" ++ xmlEscapeAttr v ++ "\x22" ++ renderAttrs rest

mutual
/-- Pretty printer modelling `minidom.toprettyxml(indent="  ")` on the trees
this program builds: a childless element with text is written inline, other
elements indent their children by two further spaces. -/
def renderElement (ind : String) : Element → String
  | .mk t attrs text cs =>
    match cs, text with
    | [], none => ind ++ "<" ++ t ++ renderAttrs attrs ++ "/>\n"
    | [], some s => ind ++ "<" ++ t ++ renderAttrs attrs ++ ">" ++ xmlEscapeText s ++ "</" ++ t ++ ">\n"
    | _ :: _, _ =>
      ind ++ "<" ++ t ++ renderAttrs attrs ++ ">\n" ++
        renderChildren (ind ++ "  ") cs ++ ind ++ "</" ++ t ++ ">\n"

/-- Render a list of children at one indentation level. -/
def renderChildren (ind : String) : List Element → String
  | [] => ""
  | c :: cs => renderElement ind c ++ renderChildren ind cs
end

/-- XML declaration line `minidom.toprettyxml` emits. -/
def xmlDeclaration : String := "<?xml version=\x221.0\x22 ?>\n"

/-- Model of `write_xml_document` (v.1.0): the text written to
`metadata.xml`, or `none` when `create_xml_document` raised (only `OSError`
is caught there). -/
def write_xml_document (folder : String) (entries : List FsEntry)
    (recursive : Bool) (ckpt : Option String) : Option String :=
  match create_xml_document folder entries recursive ckpt with
  | some root => some (xmlDeclaration ++ renderElement "" root)
  | none => none

/-- First child with the given tag, as `element.find(tag)`. -/
def findChild (e : Element) (t : String) : Option Element :=
  e.children.find? (fun c => c.tag == t)

/-- Prompt contribution of one element visited by
`xml_document.iter('image')` in `get_all_prompts` (v.1.0), given its tag is
`image`: nothing without a `dream` child; otherwise the dream text, with
`" -o " + os.path.dirname(path text)` appended when the output flag is set.
A missing `path` child (`None.text`), a `None` path text
(`os.path.dirname(None)`) or a `None` dream text (`" -o ".join` with `None`)
raises, modelled as `none`. -/
def image_prompt (output : Bool) (e : Element) : Option (List (Option String)) :=
  match findChild e "dream" with
  | none => some []
  | some d =>
    if output then
      match findChild e "path" with
      | none => none
      | some p =>
        match p.text, d.text with
        | some pt, some dt => some [some (dt ++ " -o " ++ dirname pt)]
        | _, _ => none
    else some [d.text]

mutual
/-- Document-order traversal of `get_all_prompts` (v.1.0) over one element:
`iter('image')` visits the element itself and then its subtree. -/
def elem_prompts (output : Bool) : Element → Option (List (Option String))
  | .mk t attrs text cs =>
    match (if t = "image" then image_prompt output (.mk t attrs text cs) else some []),
          children_prompts output cs with
    | some here, some rest => some (here ++ rest)
    | _, _ => none

/-- Traversal of `get_all_prompts` over a list of children. -/
def children_prompts (output : Bool) : List Element → Option (List (Option String))
  | [] => some []
  | c :: cs =>
    match elem_prompts output c, children_prompts output cs with
    | some xs, some ys => some (xs ++ ys)
    | _, _ => none
end

/-- Model of `get_all_prompts` (v.1.0): the list of prompts collected over
the document (entries are the collected `dream.text` values, which Python
permits to be `None` when the output flag is off). -/
def get_all_prompts (doc : Element) (output : Bool) : Option (List (Option String)) :=
  elem_prompts output doc

/-- Model of `write_dreams` (v.1.0): the content written to the prompts
file, one `dream + "\n"` per prompt (the output argument is only logged
there; the `-o` suffix was already attached by `get_all_prompts`). A `None`
prompt makes `dream + "\n"` raise `TypeError`, modelled as `none`. -/
def write_dreams : List (Option String) → Option String
  | [] => some ""
  | none :: _ => none
  | some d :: rest =>
    match write_dreams rest with
    | some r => some (d ++ "\n" ++ r)
    | none => none

/-- Model of `parse_metadata_xml_file` (v.1.0): re-parsing the metadata file
is the identity on the stored element tree; `eltree.parse` raises when the
file does not exist (`none`). -/
def parse_metadata_xml_file (existing : Option Element) : Option Element :=
  existing

/-- Model of `create_dreams_file` (v.1.0): parse the metadata file (there is
no existence check in this variant) and write the extracted prompts. The
result is the prompts-file content, `none` when an exception escapes. -/
def create_dreams_file (existing : Option Element) (output_argument : Bool) : Option String :=
  match parse_metadata_xml_file existing with
  | none => none
  | some doc =>
    match get_all_prompts doc output_argument with
    | some dreams => write_dreams dreams
    | none => none

namespace Legacy

/-- Version string of the v.0.6.1 variant (`__version__`). -/
def version : String := "v.0.6.1"

/-- Model of `create_image_element` (v.0.6.1): as in v.1.0, except the
`filename` attribute is the listing name passed separately (the `doc`
parameter of the Python function is unused). -/
def create_image_element (filename file_path : String)
    (metadata : List (String × String)) (size : Nat × Nat) (ckpt : Option String) :
    Option Element :=
  match flatMapOpt (meta_entry_elems ckpt) metadata with
  | some metaChildren =>
    some (Element.mk "image" [("filename", filename)] none
      (add_single_element "path" file_path ::
        add_single_element "size" (pyTupleStr size) :: metaChildren))
  | none => none

/-- Elements one iteration of the v.0.6.1 `create_xml_document` loop
appends: names not ending in `.png` are skipped, and so are entries whose
extraction fails (a directory named `*.png` makes `Image.open` raise
`OSError`, which `process_png_file` turns into the same skip). -/
def xml_entry_elems (folder : String) (ckpt : Option String) : FsEntry → Option (List Element)
  | .dir _ _ => some []
  | .file n d =>
    if sEndsWith n ".png" then
      match process_png_file d with
      | (some metadata, some size) =>
        match create_image_element n (pathJoin folder n) metadata size ckpt with
        | some e => some [e]
        | none => none
      | _ => some []
    else some []

/-- Model of `create_xml_document` (v.0.6.1): a flat root `<metadata>`
element whose children are the image elements of the folder's own listing
(no folder elements, no recursion in this variant). -/
def create_xml_document (folder : String) (entries : List FsEntry)
    (ckpt : Option String) : Option Element :=
  match flatMapOpt (xml_entry_elems folder ckpt) entries with
  | some kids =>
    some (Element.mk "metadata" [("software", "MetaDreams " ++ version)] none kids)
  | none => none

/-- Dream contribution of one `image`-tagged element in `extract_dreams`
(v.0.6.1): note the capitalised tag `"Dream"` it searches for. -/
def image_dream (e : Element) : List (Option String) :=
  match findChild e "Dream" with
  | some d => [d.text]
  | none => []

mutual
/-- Document-order traversal of `extract_dreams` (v.0.6.1) over one element. -/
def elem_dreams : Element → List (Option String)
  | .mk t attrs text cs =>
    (if t = "image" then image_dream (.mk t attrs text cs) else []) ++ children_dreams cs

/-- Traversal of `extract_dreams` over a list of children. -/
def children_dreams : List Element → List (Option String)
  | [] => []
  | c :: cs => elem_dreams c ++ children_dreams cs
end

/-- Model of `extract_dreams` (v.0.6.1): the collected `dream.text` values of
`image.find("Dream")` hits, in document order. -/
def extract_dreams (doc : Element) : List (Option String) :=
  elem_dreams doc

/-- One line written by `write_dreams` (v.0.6.1): the ` -o ` suffix carries
the user-supplied output folder (a truthy `output_generation`) for every
line in this variant. -/
def dream_line (output_generation : Option String) (d : String) : String :=
  match output_generation with
  | some o => if o = "" then d ++ "\n" else d ++ " -o " ++ o ++ "\n"
  | none => d ++ "\n"

/-- Model of `write_dreams` (v.0.6.1): the prompts-file content; a `None`
dream makes the concatenation raise `TypeError` (`none`). -/
def write_dreams (dreams : List (Option String)) (output_generation : Option String) :
    Option String :=
  match dreams with
  | [] => some ""
  | none :: _ => none
  | some d :: rest =>
    match write_dreams rest output_generation with
    | some r => some (dream_line output_generation d ++ r)
    | none => none

/-- Model of `create_dreams_file` (v.0.6.1): when `metadata.xml` does not
exist in the folder, it is generated first with `write_xml_document(folder,
xml_file, None, verbose)` (checkpoint `None`); then the file is parsed and
the dreams are written. Re-parsing the just-written file is the identity on
the element tree; `none` models an exception escaping (`write_xml_document`
catches only `OSError`, so a JSON failure during generation propagates). -/
def create_dreams_file (folder : String) (entries : List FsEntry)
    (existing : Option Element) (output_argument : Option String) : Option String :=
  match (match existing with
         | some doc => some doc
         | none => create_xml_document folder entries none) with
  | none => none
  | some doc => write_dreams (extract_dreams doc) output_argument

end Legacy

/-- Specification-side view of an image's dream field: the value of the
first metadata key that lowercases to `dream` (the first `<dream>` child of
the serialized image, hence the one `image.find('dream')` returns). -/
def imageDream (d : PngData) : Option String :=
  (d.info.find? (fun kv => sLower kv.1 == "dream")).map (fun kv => kv.2)

mutual
/-- Specification-side list of `(dream text, stored path)` records of the
images one entry contributes to the document, in walk order: `.png` files
(the code tests the joined path, equivalent for POSIX names) whose data is
readable and carries a dream field. -/
def specDreamRecordsEntry (recursive : Bool) (folder : String) : FsEntry → List (String × String)
  | .file n data =>
    if sEndsWith (pathJoin folder n) ".png" then
      match data with
      | some d =>
        match imageDream d with
        | some v => [(v, pathJoin folder n)]
        | none => []
      | none => []
    else []
  | .dir n sub =>
    if recursive then specDreamRecordsList recursive (pathJoin folder n) sub else []

/-- Specification-side dream records of a listing, in walk order. -/
def specDreamRecordsList (recursive : Bool) (folder : String) : List FsEntry → List (String × String)
  | [] => []
  | e :: rest =>
    specDreamRecordsEntry recursive folder e ++ specDreamRecordsList recursive folder rest
end

/-- Prompt a dream record yields: the dream text, with
` -o <dirname of the stored path>` appended when the output flag is set. -/
def specPromptOf (output : Bool) (r : String × String) : Option String :=
  some (if output then r.1 ++ " -o " ++ dirname r.2 else r.1)

/-- Concatenation of prompt lines, one `"\n"`-terminated line per prompt,
as `write_dreams` writes them. -/
def joinLines : List String → String
  | [] => ""
  | d :: rest => d ++ "\n" ++ joinLines rest

/-- Number of `.png`-named files directly in a listing. -/
def pngCountTop (folder : String) : List FsEntry → Nat
  | [] => 0
  | .file n _ :: rest =>
    (if sEndsWith (pathJoin folder n) ".png" then 1 else 0) + pngCountTop folder rest
  | .dir _ _ :: rest => pngCountTop folder rest

mutual
/-- Number of `.png`-named files in the whole subtree of one entry. -/
def entryPngDeep (folder : String) : FsEntry → Nat
  | .file n _ => if sEndsWith (pathJoin folder n) ".png" then 1 else 0
  | .dir n sub => listPngDeep (pathJoin folder n) sub

/-- Number of `.png`-named files in the whole subtree of a listing. -/
def listPngDeep (folder : String) : List FsEntry → Nat
  | [] => 0
  | e :: rest => entryPngDeep folder e + listPngDeep folder rest
end

mutual
/-- Number of elements with tag `image` in an element's whole subtree (the
element itself included). -/
def elemImageCount : Element → Nat
  | .mk t _ _ cs => (if t = "image" then 1 else 0) + listImageCount cs

/-- Number of `image`-tagged elements in a forest. -/
def listImageCount : List Element → Nat
  | [] => 0
  | c :: cs => elemImageCount c + listImageCount cs
end

mutual
/-- Well-formedness of every PNG in one entry's subtree: each `.png`-named
file opens and decodes (its data is present). -/
def entryPngsGood (folder : String) : FsEntry → Bool
  | .file n d => !(sEndsWith (pathJoin folder n) ".png") || d.isSome
  | .dir n sub => listPngsGood (pathJoin folder n) sub

/-- Well-formedness of every PNG in a listing's subtree. -/
def listPngsGood (folder : String) : List FsEntry → Bool
  | [] => true
  | e :: rest => entryPngsGood folder e && listPngsGood folder rest
end

/-- Absence of an `image` tag collision in one decoded `sd-metadata` field:
no serialized leaf under `<sd-metadata>` gets the tag `image`. -/
def sdFieldNoClash (kv : String × Json) : Bool :=
  if kv.1 = "image" then
    match parse_image_info kv.2 with
    | some (some (.obj fields)) => fields.all (fun f => !(sLower f.1 == "image"))
    | _ => true
  else !(sLower kv.1 == "image")

/-- Absence of an `image` tag collision for one metadata entry: an
`sd-metadata` key defers to its decoded fields, any other key must not
lowercase to `image`. -/
def metaKeyNoClash (kv : String × String) : Bool :=
  if kv.1 = "sd-metadata" then
    match json_loads kv.2 with
    | some (.obj fields) => fields.all sdFieldNoClash
    | _ => true
  else !(sLower kv.1 == "image")

/-- Absence of an `image` tag collision in one image's metadata: no metadata
key (nor nested `sd-metadata` key) lowercases to `image`, so the only
`image`-tagged element the image yields is its own record element. -/
def pngNoClash (d : PngData) : Bool :=
  d.info.all metaKeyNoClash

mutual
/-- Absence of `image` tag collisions in one entry's subtree. -/
def entryNoClash : FsEntry → Bool
  | .file _ d =>
    match d with
    | some pd => pngNoClash pd
    | none => true
  | .dir _ sub => listNoClash sub

/-- Absence of `image` tag collisions in a listing's subtree. -/
def listNoClash : List FsEntry → Bool
  | [] => true
  | e :: rest => entryNoClash e && listNoClash rest
end

mutual
/-- Presence, in one entry's walked scope, of a processed image whose
element creation fails (for example malformed `sd-metadata` JSON). -/
def entryHasFailing (recursive : Bool) (ckpt : Option String) (folder : String) : FsEntry → Bool
  | .file n d =>
    sEndsWith (pathJoin folder n) ".png" &&
      (match process_png_file d with
       | (some metadata, some size) =>
         (create_image_element (pathJoin folder n) metadata size ckpt).isNone
       | _ => false)
  | .dir n sub => recursive && listHasFailing recursive ckpt (pathJoin folder n) sub

/-- Presence of a failing image in a listing's walked scope. -/
def listHasFailing (recursive : Bool) (ckpt : Option String) (folder : String) : List FsEntry → Bool
  | [] => false
  | e :: rest =>
    entryHasFailing recursive ckpt folder e || listHasFailing recursive ckpt folder rest
end

/-- Skeleton of the folder structure: name, path and subfolders. -/
inductive Skel where
  | node (name path : String) (children : List Skel)

mutual
/-- Folder skeleton of an element: its `name` and `path` attributes and the
skeletons of its `folder`-tagged children. -/
def elemSkel : Element → Skel
  | .mk _ attrs _ cs =>
    .node (((attrs.find? (fun a => a.1 == "name")).map (fun a => a.2)).getD "")
          (((attrs.find? (fun a => a.1 == "path")).map (fun a => a.2)).getD "")
          (elemSkelKids cs)

/-- Skeletons of the `folder`-tagged elements of a forest, in order. -/
def elemSkelKids : List Element → List Skel
  | [] => []
  | c :: cs => (if c.tag = "folder" then [elemSkel c] else []) ++ elemSkelKids cs
end

mutual
/-- Directory skeleton contributed by one filesystem entry. -/
def fsSkelEntry (folder : String) : FsEntry → List Skel
  | .file _ _ => []
  | .dir n sub =>
    [Skel.node (basename (pathJoin folder n)) (pathJoin folder n)
      (fsSkelList (pathJoin folder n) sub)]

/-- Directory skeletons of a listing, in order. -/
def fsSkelList (folder : String) : List FsEntry → List Skel
  | [] => []
  | e :: rest => fsSkelEntry folder e ++ fsSkelList folder rest
end

/-- Directory skeleton of a folder and its listing. -/
def fsSkel (folder : String) (entries : List FsEntry) : Skel :=
  .node (basename folder) folder (fsSkelList folder entries)

/-- An element with no child elements (a flattened metadata leaf). -/
def isFlatChild (e : Element) : Bool := e.children.isEmpty

/-- An `<sd-metadata>` block: so tagged, with only leaf children. -/
def sdBlock (e : Element) : Bool :=
  e.tag == "sd-metadata" && e.children.all isFlatChild

/-- Shape of an image record element: tag `image`, a single `filename`
attribute, a `path` leaf then a `size` leaf (both with text), then flattened
metadata fields, each a leaf or an `<sd-metadata>` block. -/
def imageShape (e : Element) : Bool :=
  e.tag == "image" &&
    (match e.attrs with
     | [(k, _)] => k == "filename"
     | _ => false) &&
    (match e.children with
     | p :: s :: rest =>
       p.tag == "path" && p.text.isSome && p.children.isEmpty &&
         s.tag == "size" && s.text.isSome && s.children.isEmpty &&
         rest.all (fun c => isFlatChild c || sdBlock c)
     | _ => false)

mutual
/-- Shape of a folder element: tag `folder`, attributes `name` then `path`,
no text, and every child a folder element or an image record element. -/
def folderShape : Element → Bool
  | .mk t attrs text cs =>
    t == "folder" &&
      (match attrs with
       | [(k1, _), (k2, _)] => k1 == "name" && k2 == "path"
       | _ => false) &&
      text.isNone && folderKidsShape cs

/-- Shape of the children of a folder element. -/
def folderKidsShape : List Element → Bool
  | [] => true
  | c :: cs => (folderShape c || imageShape c) && folderKidsShape cs
end

mutual
/-- Folder element one entry contributes to a recursive walk of a tree with
no PNG descendants: subdirectories only. -/
def specFolderTreeEntry (folder : String) : FsEntry → List Element
  | .file _ _ => []
  | .dir n sub =>
    [folder_element (pathJoin folder n) (specFolderTreeList (pathJoin folder n) sub)]

/-- Folder elements of a listing with no PNG descendants, in order. -/
def specFolderTreeList (folder : String) : List FsEntry → List Element
  | [] => []
  | e :: rest => specFolderTreeEntry folder e ++ specFolderTreeList folder rest
end

theorem findP_append {α : Type} (p : α → Bool) (l₁ l₂ : List α) :
    (l₁ ++ l₂).find? p =
      (match l₁.find? p with
       | some a => some a
       | none => l₂.find? p) := by
  induction l₁ with
  | nil => simp
  | cons a l ih =>
    by_cases h : p a = true
    · simp [List.find?, h]
    · simp only [Bool.not_eq_true] at h
      simp [List.find?, h, ih]

theorem flatMapOpt_mem {α β : Type} (f : α → Option (List β)) (l : List α) (out : List β)
    (h : flatMapOpt f l = some out) :
    ∀ b ∈ out, ∃ a ∈ l, ∃ xs, f a = some xs ∧ b ∈ xs := by
  induction l generalizing out with
  | nil =>
    simp only [flatMapOpt, Option.some.injEq] at h
    subst h; intro b hb; cases hb
  | cons a rest ih =>
    match h1 : f a, h2 : flatMapOpt f rest with
    | some xs, some ys =>
      simp only [flatMapOpt, h1, h2, Option.some.injEq] at h
      subst h
      intro b hb
      rcases List.mem_append.mp hb with hx | hy
      · exact ⟨a, List.mem_cons_self a rest, xs, h1, hx⟩
      · obtain ⟨a2, ha2, xs2, hf2, hb2⟩ := ih ys h2 b hy
        exact ⟨a2, List.mem_cons_of_mem a ha2, xs2, hf2, hb2⟩
    | some _, none =>
      simp only [flatMapOpt, h1, h2] at h
      exact Option.noConfusion h
    | none, _ =>
      simp only [flatMapOpt, h1] at h
      exact Option.noConfusion h

theorem children_prompts_append (o : Bool) (xs ys : List Element) :
    children_prompts o (xs ++ ys) =
      match children_prompts o xs, children_prompts o ys with
      | some a, some b => some (a ++ b)
      | _, _ => none := by
  induction xs with
  | nil =>
    simp only [List.nil_append, children_prompts]
    cases children_prompts o ys <;> rfl
  | cons c cs ih =>
    simp only [List.cons_append, children_prompts, List.append_eq]
    rw [ih]
    cases hx : elem_prompts o c <;> cases hy : children_prompts o cs <;>
      cases hz : children_prompts o ys <;> simp

theorem elem_prompts_childless (o : Bool) (t : String) (a : List (String × String))
    (x : Option String) : elem_prompts o (.mk t a x []) = some [] := by
  by_cases h : t = "image"
  · simp [elem_prompts, h, image_prompt, findChild, Element.children, children_prompts, List.find?]
  · simp [elem_prompts, h, children_prompts]

theorem children_prompts_trivial (o : Bool) (l : List Element)
    (h : ∀ e ∈ l, elem_prompts o e = some []) : children_prompts o l = some [] := by
  induction l with
  | nil => rfl
  | cons c cs ih =>
    simp only [children_prompts]
    rw [h c (List.mem_cons_self c cs), ih (fun e he => h e (List.mem_cons_of_mem c he))]
    rfl

theorem write_image_info_childless (img : Option Json) (xs : List Element)
    (h : write_image_info img = some xs) : ∀ e ∈ xs, ∃ t a x, e = Element.mk t a x [] := by
  match img with
  | none =>
    simp only [write_image_info, Option.some.injEq] at h
    subst h; intro e he; cases he
  | some (.obj fields) =>
    simp only [write_image_info, Option.some.injEq] at h
    subst h
    intro e he
    obtain ⟨f, _, rfl⟩ := List.mem_map.mp he
    exact ⟨_, _, _, rfl⟩
  | some .null | some (.bool _) | some (.num _) | some (.str _) | some (.arr _) =>
    simp [write_image_info] at h

theorem sd_field_elems_childless (kv : String × Json) (xs : List Element)
    (h : sd_field_elems kv = some xs) : ∀ e ∈ xs, ∃ t a x, e = Element.mk t a x [] := by
  by_cases hk : kv.1 = "image"
  · simp only [sd_field_elems, hk, if_pos] at h
    match hp : parse_image_info kv.2 with
    | some img =>
      rw [hp] at h
      exact write_image_info_childless img xs h
    | none => rw [hp] at h; cases h
  · simp only [sd_field_elems, hk, if_neg, Option.some.injEq, not_false_iff] at h
    subst h
    intro e he
    rw [List.mem_singleton] at he
    subst he
    exact ⟨_, _, _, rfl⟩

theorem ckpt_elems_childless (ck : Option String) :
    ∀ e ∈ ckpt_elems ck, ∃ t a x, e = Element.mk t a x [] := by
  match ck with
  | none => intro e he; cases he
  | some c =>
    intro e he
    simp only [ckpt_elems] at he
    by_cases hc : c = ""
    · simp [hc] at he
    · simp only [hc, if_neg, not_false_iff, List.mem_singleton] at he
      subst he
      exact ⟨_, _, _, rfl⟩

theorem meta_entry_trivial (o : Bool) (ck : Option String) (kv : String × String)
    (xs : List Element) (h : meta_entry_elems ck kv = some xs) :
    ∀ e ∈ xs, elem_prompts o e = some [] := by
  by_cases hk : kv.1 = "sd-metadata"
  · match hj : json_loads kv.2 with
    | some (.obj fields) =>
      match hf : flatMapOpt sd_field_elems fields with
      | some inner =>
        simp only [meta_entry_elems, hk, if_pos, hj, hf, Option.some.injEq] at h
        subst h
        intro e he
        rw [List.mem_singleton] at he
        subst he
        have hkids : ∀ e ∈ ckpt_elems ck ++ inner, elem_prompts o e = some [] := by
          intro e he
          have : ∃ t a x, e = Element.mk t a x [] := by
            rcases List.mem_append.mp he with h1 | h2
            · exact ckpt_elems_childless ck e h1
            · obtain ⟨f, _, ys, hys, hey⟩ := flatMapOpt_mem sd_field_elems fields inner hf e h2
              exact sd_field_elems_childless f ys hys e hey
          obtain ⟨t, a, x, rfl⟩ := this
          exact elem_prompts_childless o _ _ _
        simp only [elem_prompts]
        rw [children_prompts_trivial o _ hkids]
        simp
      | none =>
        simp only [meta_entry_elems, hk, if_pos, hj, hf] at h
        exact Option.noConfusion h
    | some .null | some (.bool _) | some (.num _) | some (.str _) | some (.arr _) =>
      simp only [meta_entry_elems, hk, if_pos, hj] at h
      exact Option.noConfusion h
    | none =>
      simp only [meta_entry_elems, hk, if_pos, hj] at h
      exact Option.noConfusion h
  · simp only [meta_entry_elems, hk, if_neg, Option.some.injEq, not_false_iff] at h
    subst h
    intro e he
    rw [List.mem_singleton] at he
    subst he
    exact elem_prompts_childless o _ _ _

theorem meta_children_trivial (o : Bool) (ck : Option String)
    (m : List (String × String)) (mc : List Element)
    (h : flatMapOpt (meta_entry_elems ck) m = some mc) :
    children_prompts o mc = some [] := by
  apply children_prompts_trivial
  intro e he
  obtain ⟨kv, _, xs, hxs, hex⟩ := flatMapOpt_mem (meta_entry_elems ck) m mc h e he
  exact meta_entry_trivial o ck kv xs hxs e hex

theorem meta_entry_sd (ck : Option String) (kv : String × String) (xs : List Element)
    (hk : kv.1 = "sd-metadata") (h : meta_entry_elems ck kv = some xs) :
    ∃ kids, xs = [Element.mk "sd-metadata" [] none kids] ∧
      ∀ e ∈ kids, ∃ t a x, e = Element.mk t a x [] := by
  match hj : json_loads kv.2 with
  | some (.obj fields) =>
    match hf : flatMapOpt sd_field_elems fields with
    | some inner =>
      simp only [meta_entry_elems, hk, if_pos, hj, hf, Option.some.injEq] at h
      refine ⟨ckpt_elems ck ++ inner, h.symm, ?_⟩
      intro e he
      rcases List.mem_append.mp he with h1 | h2
      · exact ckpt_elems_childless ck e h1
      · obtain ⟨f, _, ys, hys, hey⟩ := flatMapOpt_mem sd_field_elems fields inner hf e h2
        exact sd_field_elems_childless f ys hys e hey
    | none =>
      simp only [meta_entry_elems, hk, if_pos, hj, hf] at h
      exact Option.noConfusion h
  | some .null | some (.bool _) | some (.num _) | some (.str _) | some (.arr _) =>
    simp only [meta_entry_elems, hk, if_pos, hj] at h
    exact Option.noConfusion h
  | none =>
    simp only [meta_entry_elems, hk, if_pos, hj] at h
    exact Option.noConfusion h

theorem meta_entry_nonsd (ck : Option String) (kv : String × String)
    (hk : ¬ kv.1 = "sd-metadata") :
    meta_entry_elems ck kv = some [add_single_element kv.1 kv.2] := by
  simp [meta_entry_elems, hk]

theorem find_dream (ck : Option String) (m : List (String × String)) (mc : List Element)
    (h : flatMapOpt (meta_entry_elems ck) m = some mc) :
    mc.find? (fun c => c.tag == "dream") =
      (m.find? (fun kv => sLower kv.1 == "dream")).map
        (fun kv => add_single_element kv.1 kv.2) := by
  induction m generalizing mc with
  | nil =>
    simp only [flatMapOpt, Option.some.injEq] at h
    subst h
    rfl
  | cons kv rest ih =>
    match h1 : meta_entry_elems ck kv, h2 : flatMapOpt (meta_entry_elems ck) rest with
    | some xs, some ys =>
      simp only [flatMapOpt, h1, h2, Option.some.injEq] at h
      subst h
      rw [findP_append]
      by_cases hk : kv.1 = "sd-metadata"
      · obtain ⟨kids, rfl, -⟩ := meta_entry_sd ck kv xs hk h1
        have htag : ¬ ((Element.mk "sd-metadata" [] none kids).tag == "dream") = true := by
          simp only [Element.tag]
          decide
        have hkey : ¬ (sLower kv.1 == "dream") = true := by
          rw [hk]; decide
        have hone : List.find? (fun c => c.tag == "dream")
            [Element.mk "sd-metadata" [] none kids] = none := by
          rw [@List.find?_cons_of_neg Element (fun c => c.tag == "dream") _ [] htag]
          rfl
        have hcons : List.find? (fun kv => sLower kv.1 == "dream") (kv :: rest) =
            List.find? (fun kv => sLower kv.1 == "dream") rest :=
          @List.find?_cons_of_neg _ (fun kv => sLower kv.1 == "dream") kv rest hkey
        simp only [hone, hcons, ih ys h2]
      · rw [meta_entry_nonsd ck kv hk] at h1
        have hxs : xs = [add_single_element kv.1 kv.2] := by
          simpa using h1.symm
        subst hxs
        by_cases hd : (sLower kv.1 == "dream") = true
        · have htag : ((add_single_element kv.1 kv.2).tag == "dream") = true := hd
          have hone : List.find? (fun c => c.tag == "dream")
              [add_single_element kv.1 kv.2] = some (add_single_element kv.1 kv.2) :=
            @List.find?_cons_of_pos Element (fun c => c.tag == "dream") _ [] htag
          have hcons : List.find? (fun kv => sLower kv.1 == "dream") (kv :: rest) = some kv :=
            @List.find?_cons_of_pos _ (fun kv => sLower kv.1 == "dream") kv rest hd
          simp [hone, hcons]
        · have htag : ¬ ((add_single_element kv.1 kv.2).tag == "dream") = true := hd
          have hone : List.find? (fun c => c.tag == "dream")
              [add_single_element kv.1 kv.2] = none := by
            rw [@List.find?_cons_of_neg Element (fun c => c.tag == "dream") _ [] htag]
            rfl
          have hcons : List.find? (fun kv => sLower kv.1 == "dream") (kv :: rest) =
              List.find? (fun kv => sLower kv.1 == "dream") rest :=
            @List.find?_cons_of_neg _ (fun kv => sLower kv.1 == "dream") kv rest hd
          simp only [hone, hcons, ih ys h2]
    | some _, none =>
      simp only [flatMapOpt, h1, h2] at h
      exact Option.noConfusion h
    | none, _ =>
      simp only [flatMapOpt, h1] at h
      exact Option.noConfusion h

theorem elem_prompts_image (o : Bool) (p : String) (m : List (String × String))
    (sz : Nat × Nat) (ck : Option String) (e : Element)
    (h : create_image_element p m sz ck = some e) :
    elem_prompts o e =
      some (match m.find? (fun kv => sLower kv.1 == "dream") with
            | some kv => [specPromptOf o (kv.2, p)]
            | none => []) := by
  match hmc : flatMapOpt (meta_entry_elems ck) m with
  | some mc =>
    simp only [create_image_element, hmc, Option.some.injEq] at h
    subst h
    have hcp : children_prompts o
        (add_single_element "path" p :: add_single_element "size" (pyTupleStr sz) :: mc) =
        some [] := by
      simp only [children_prompts, add_single_element]
      rw [elem_prompts_childless, elem_prompts_childless, meta_children_trivial o ck m mc hmc]
      rfl
    simp only [elem_prompts]
    rw [hcp]
    have hip : image_prompt o
        (Element.mk "image" [("filename", basename p)] none
          (add_single_element "path" p :: add_single_element "size" (pyTupleStr sz) :: mc)) =
        some (match m.find? (fun kv => sLower kv.1 == "dream") with
              | some kv => [specPromptOf o (kv.2, p)]
              | none => []) := by
      have hpt : ¬ ((add_single_element "path" p).tag == "dream") = true := by
        simp only [add_single_element, Element.tag]
        decide
      have hst : ¬ ((add_single_element "size" (pyTupleStr sz)).tag == "dream") = true := by
        simp only [add_single_element, Element.tag]
        decide
      have hfd : List.find? (fun c => c.tag == "dream")
          (add_single_element "path" p :: add_single_element "size" (pyTupleStr sz) :: mc) =
          (m.find? (fun kv => sLower kv.1 == "dream")).map
            (fun kv => add_single_element kv.1 kv.2) := by
        rw [@List.find?_cons_of_neg Element (fun c => c.tag == "dream") _ _ hpt,
            @List.find?_cons_of_neg Element (fun c => c.tag == "dream") _ _ hst,
            find_dream ck m mc hmc]
      simp only [image_prompt, findChild, Element.children, hfd]
      match hfind : m.find? (fun kv => sLower kv.1 == "dream") with
      | none => simp only [hfind, Option.map_none']
      | some kv =>
        simp only [hfind, Option.map_some']
        by_cases ho : o = true
        · subst ho
          have hpp : ((add_single_element "path" p).tag == "path") = true := by
            simp only [add_single_element, Element.tag]
            decide
          have hfp : List.find? (fun c => c.tag == "path")
              (add_single_element "path" p :: add_single_element "size" (pyTupleStr sz) :: mc) =
              some (add_single_element "path" p) :=
            @List.find?_cons_of_pos Element (fun c => c.tag == "path") _ _ hpp
          rw [hfp]
          simp [add_single_element, Element.text, specPromptOf]
        · simp only [Bool.not_eq_true] at ho
          subst ho
          simp [add_single_element, Element.text, specPromptOf]
    rw [hip]
    simp
  | none =>
    simp only [create_image_element, hmc] at h
    exact Option.noConfusion h

theorem walk_flag (r : Bool) (ck : Option String) (f : String) (l : List FsEntry) :
    folder_walk r ck f (is_folder_empty l) l = folder_walk r ck f false l := by
  cases l with
  | nil => rfl
  | cons e rest => rfl

theorem walk_prompts (r : Bool) (ck : Option String) (o : Bool) :
    ∀ (l : List FsEntry) (folder : String) (kids : List Element),
      folder_walk r ck folder false l = some kids →
      children_prompts o kids =
        some ((specDreamRecordsList r folder l).map (specPromptOf o)) := by
  have H : ∀ n (l : List FsEntry), sizeOf l ≤ n → ∀ (folder : String) (kids : List Element),
      folder_walk r ck folder false l = some kids →
      children_prompts o kids =
        some ((specDreamRecordsList r folder l).map (specPromptOf o)) := by
    intro n
    induction n with
    | zero =>
      intro l hl
      cases l with
      | nil =>
        intro folder kids h
        simp only [folder_walk, Option.some.injEq] at h
        subst h
        rfl
      | cons e rest => exfalso; cases e <;> simp at hl
    | succ n ih =>
      intro l hl folder kids h
      cases l with
      | nil =>
        simp only [folder_walk, Option.some.injEq] at h
        subst h
        rfl
      | cons e rest =>
        have hrest : sizeOf rest ≤ n := by cases e <;> simp at hl <;> omega
        simp only [folder_walk] at h
        match h1 : folder_entry_elems r ck folder false e,
              h2 : folder_walk r ck folder false rest with
        | some here, some cs =>
          rw [h1, h2] at h
          simp only [Option.some.injEq] at h
          subst h
          rw [children_prompts_append, ih rest hrest folder cs h2]
          have hhere : children_prompts o here =
              some ((specDreamRecordsEntry r folder e).map (specPromptOf o)) := by
            cases e with
            | file name data =>
              simp only [folder_entry_elems, Bool.false_eq_true, if_false] at h1
              by_cases hpng : sEndsWith (pathJoin folder name) ".png" = true
              · rw [if_pos hpng] at h1
                match data with
                | none =>
                  simp only [process_png_file, Option.some.injEq] at h1
                  subst h1
                  simp [specDreamRecordsEntry, hpng, children_prompts]
                | some pd =>
                  simp only [process_png_file] at h1
                  match himg : create_image_element (pathJoin folder name) pd.info pd.size ck with
                  | some ie =>
                    rw [himg] at h1
                    simp only [Option.some.injEq] at h1
                    subst h1
                    simp only [children_prompts]
                    rw [elem_prompts_image o (pathJoin folder name) pd.info pd.size ck ie himg]
                    simp only [specDreamRecordsEntry, hpng, if_pos, imageDream]
                    match hfind : pd.info.find? (fun kv => sLower kv.1 == "dream") with
                    | some kv => simp [hfind]
                    | none => simp [hfind]
                  | none =>
                    rw [himg] at h1
                    exact Option.noConfusion h1
              · rw [if_neg hpng] at h1
                simp only [Option.some.injEq] at h1
                subst h1
                simp only [Bool.not_eq_true] at hpng
                simp [specDreamRecordsEntry, hpng, children_prompts]
            | dir name sub =>
              simp only [folder_entry_elems, Bool.false_eq_true, if_false] at h1
              by_cases hr : r = true
              · rw [if_pos hr] at h1
                match hw : folder_walk r ck (pathJoin folder name) (is_folder_empty sub) sub with
                | some subkids =>
                  rw [hw] at h1
                  simp only [Option.some.injEq] at h1
                  subst h1
                  rw [walk_flag] at hw
                  have hsub : sizeOf sub ≤ n := by simp at hl; omega
                  have hrec := ih sub hsub (pathJoin folder name) subkids hw
                  simp only [children_prompts, folder_element, elem_prompts]
                  rw [hrec]
                  simp [specDreamRecordsEntry, hr]
                | none =>
                  rw [hw] at h1
                  exact Option.noConfusion h1
              · rw [if_neg hr] at h1
                simp only [Option.some.injEq] at h1
                subst h1
                simp only [Bool.not_eq_true] at hr
                simp [specDreamRecordsEntry, hr, children_prompts]
          rw [hhere]
          simp [specDreamRecordsList]
        | some _, none =>
          rw [h1, h2] at h
          exact Option.noConfusion h
        | none, _ =>
          rw [h1] at h
          exact Option.noConfusion h
  exact fun l => H (sizeOf l) l (le_refl _)

theorem doc_prompts (o : Bool) (folder : String) (entries : List FsEntry)
    (recursive : Bool) (ckpt : Option String) (doc : Element)
    (h : create_xml_document folder entries recursive ckpt = some doc) :
    get_all_prompts doc o =
      some ((specDreamRecordsList recursive folder entries).map (specPromptOf o)) := by
  match hfe : create_folder_element folder entries recursive ckpt with
  | some fe =>
    simp only [create_xml_document, hfe, Option.some.injEq] at h
    subst h
    match hw : folder_walk recursive ckpt folder (is_folder_empty entries) entries with
    | some kids =>
      simp only [create_folder_element, hw, Option.some.injEq] at hfe
      subst hfe
      rw [walk_flag] at hw
      have hk := walk_prompts recursive ckpt o entries folder kids hw
      simp only [get_all_prompts, elem_prompts, folder_element, children_prompts]
      rw [hk]
      simp
    | none =>
      simp only [create_folder_element, hw] at hfe
      exact Option.noConfusion hfe
  | none =>
    simp only [create_xml_document, hfe] at h
    exact Option.noConfusion h

theorem write_dreams_map_some (l : List String) :
    write_dreams (l.map some) = some (joinLines l) := by
  induction l with
  | nil => rfl
  | cons d rest ih => simp [write_dreams, ih, joinLines]

/-- C1: for every metadata XML document the Tree Serializer produces from a
set of source images, running the Prompt Extractor on it (output flag off)
yields exactly the list of dream-field text values of those images, in
document order; images without a dream field, and files the serializer
skipped, contribute nothing. -/
theorem C1_prompt_roundtrip (folder : String) (entries : List FsEntry) (recursive : Bool)
    (ckpt : Option String) (doc : Element)
    (h : create_xml_document folder entries recursive ckpt = some doc) :
    get_all_prompts doc false =
      some (((specDreamRecordsList recursive folder entries).map Prod.fst).map some) := by
  rw [doc_prompts false folder entries recursive ckpt doc h]
  simp [specPromptOf, List.map_map, Function.comp]

/-- Witness for C1: the spec's example folder `/a` with `x.png`
(dream "cat on a chair", 512x512) and `y.png` (no dream field, 256x256). -/
theorem C1_prompt_roundtrip_witness :
    get_all_prompts
      (Element.mk "metadata" [("software", "MetaDreams v.1.0")] none
        [Element.mk "folder" [("name", "a"), ("path", "/a")] none
          [Element.mk "image" [("filename", "x.png")] none
            [Element.mk "path" [] (some "/a/x.png") [],
             Element.mk "size" [] (some "(512, 512)") [],
             Element.mk "dream" [] (some "cat on a chair") []],
           Element.mk "image" [("filename", "y.png")] none
            [Element.mk "path" [] (some "/a/y.png") [],
             Element.mk "size" [] (some "(256, 256)") []]]]) false =
      some (((specDreamRecordsList false "/a"
        [.file "x.png" (some ⟨[("dream", "cat on a chair")], (512, 512)⟩),
         .file "y.png" (some ⟨[], (256, 256)⟩)]).map Prod.fst).map some) :=
  C1_prompt_roundtrip "/a"
    [.file "x.png" (some ⟨[("dream", "cat on a chair")], (512, 512)⟩),
     .file "y.png" (some ⟨[], (256, 256)⟩)] false none _ (by rfl)

/-- C6: with the output flag enabled, every prompt the extractor collects
from a generated document is the image's dream text, the suffix " -o ", and
the directory of that image's own stored path field; `write_dreams` then
writes exactly those prompts, one line each. -/
theorem C6_output_flag_prompts (folder : String) (entries : List FsEntry) (recursive : Bool)
    (ckpt : Option String) (doc : Element)
    (h : create_xml_document folder entries recursive ckpt = some doc) :
    get_all_prompts doc true =
      some ((specDreamRecordsList recursive folder entries).map
        (fun r => some (r.1 ++ " -o " ++ dirname r.2))) ∧
    create_dreams_file (some doc) true =
      some (joinLines ((specDreamRecordsList recursive folder entries).map
        (fun r => r.1 ++ " -o " ++ dirname r.2))) := by
  have h1 : get_all_prompts doc true =
      some ((specDreamRecordsList recursive folder entries).map
        (fun r => some (r.1 ++ " -o " ++ dirname r.2))) := by
    rw [doc_prompts true folder entries recursive ckpt doc h]
    simp [specPromptOf]
  refine ⟨h1, ?_⟩
  have hmap : (specDreamRecordsList recursive folder entries).map
      (fun r => some (r.1 ++ " -o " ++ dirname r.2)) =
      ((specDreamRecordsList recursive folder entries).map
        (fun r => r.1 ++ " -o " ++ dirname r.2)).map some := by
    simp [List.map_map, Function.comp]
  simp only [create_dreams_file, parse_metadata_xml_file, h1, hmap]
  exact write_dreams_map_some _

/-- Witness for C6: folder `/g` with one PNG carrying a dream field. -/
theorem C6_output_flag_prompts_witness :
    get_all_prompts
      (Element.mk "metadata" [("software", "MetaDreams v.1.0")] none
        [Element.mk "folder" [("name", "g"), ("path", "/g")] none
          [Element.mk "image" [("filename", "z.png")] none
            [Element.mk "path" [] (some "/g/z.png") [],
             Element.mk "size" [] (some "(64, 64)") [],
             Element.mk "dream" [] (some "hello") []]]]) true =
      some ((specDreamRecordsList false "/g"
        [.file "z.png" (some ⟨[("dream", "hello")], (64, 64)⟩)]).map
          (fun r => some (r.1 ++ " -o " ++ dirname r.2))) ∧
    create_dreams_file
      (some (Element.mk "metadata" [("software", "MetaDreams v.1.0")] none
        [Element.mk "folder" [("name", "g"), ("path", "/g")] none
          [Element.mk "image" [("filename", "z.png")] none
            [Element.mk "path" [] (some "/g/z.png") [],
             Element.mk "size" [] (some "(64, 64)") [],
             Element.mk "dream" [] (some "hello") []]]])) true =
      some (joinLines ((specDreamRecordsList false "/g"
        [.file "z.png" (some ⟨[("dream", "hello")], (64, 64)⟩)]).map
          (fun r => r.1 ++ " -o " ++ dirname r.2))) :=
  C6_output_flag_prompts "/g"
    [.file "z.png" (some ⟨[("dream", "hello")], (64, 64)⟩)] false none _ (by rfl)

theorem walk_failing (r : Bool) (ck : Option String) :
    ∀ (l : List FsEntry) (folder : String),
      listHasFailing r ck folder l = true →
      folder_walk r ck folder false l = none := by
  have H : ∀ n (l : List FsEntry), sizeOf l ≤ n → ∀ (folder : String),
      listHasFailing r ck folder l = true →
      folder_walk r ck folder false l = none := by
    intro n
    induction n with
    | zero =>
      intro l hl
      cases l with
      | nil => intro folder h; simp [listHasFailing] at h
      | cons e rest => exfalso; cases e <;> simp at hl
    | succ n ih =>
      intro l hl folder h
      cases l with
      | nil => simp [listHasFailing] at h
      | cons e rest =>
        have hrest : sizeOf rest ≤ n := by cases e <;> simp at hl <;> omega
        simp only [listHasFailing, Bool.or_eq_true] at h
        rcases h with he | hr
        · have hee : folder_entry_elems r ck folder false e = none := by
            cases e with
            | file name data =>
              simp only [entryHasFailing, Bool.and_eq_true] at he
              obtain ⟨hpng, hfail⟩ := he
              simp only [folder_entry_elems, Bool.false_eq_true, if_false, if_pos hpng]
              match hproc : process_png_file data with
              | (some m, some s) =>
                simp only [hproc, Option.isNone_iff_eq_none] at hfail
                simp only [hfail]
              | (none, none) =>
                simp only [hproc] at hfail
                exact absurd hfail (by simp)
              | (none, some _) =>
                simp only [hproc] at hfail
                exact absurd hfail (by simp)
              | (some _, none) =>
                simp only [hproc] at hfail
                exact absurd hfail (by simp)
            | dir name sub =>
              simp only [entryHasFailing, Bool.and_eq_true] at he
              obtain ⟨hrec, hsub⟩ := he
              have hsz : sizeOf sub ≤ n := by simp at hl; omega
              have hnone := ih sub hsz (pathJoin folder name) hsub
              simp only [folder_entry_elems, Bool.false_eq_true, if_false, if_pos hrec]
              rw [walk_flag, hnone]
          simp only [folder_walk, hee]
        · have hnone := ih rest hrest folder hr
          simp only [folder_walk, hnone]
          cases folder_entry_elems r ck folder false e <;> rfl
  exact fun l => H (sizeOf l) l (le_refl _)

theorem is_folder_empty_append_cons (l1 l2 : List FsEntry) (x : FsEntry) :
    is_folder_empty (l1 ++ x :: l2) = false := by
  cases l1 <;> rfl

/-- C2 counterexample: the folder `/c` holds a PNG whose `sd-metadata` is not
JSON and a healthy sibling; no XML document is produced at all — the record
is not merely excluded, the whole run aborts. -/
theorem C2_json_failure_counterexample :
    create_xml_document "/c"
      [.file "x.png" (some ⟨[("sd-metadata", "oops")], (1, 1)⟩),
       .file "y.png" (some ⟨[], (1, 1)⟩)] false none = none ∧
    write_xml_document "/c"
      [.file "x.png" (some ⟨[("sd-metadata", "oops")], (1, 1)⟩),
       .file "y.png" (some ⟨[], (1, 1)⟩)] false none = none := ⟨rfl, rfl⟩

/-- C2 amended: when any walked image's element creation fails (for example
its `sd-metadata` fails to decode as JSON), the exception propagates out of
`create_image_element` and `create_folder_element` — neither catches it, and
`write_xml_document` catches only `OSError` — so no XML document and no
metadata.xml content are produced; the failure aborts the run instead of
being local to the record. -/
theorem C2_json_failure_aborts (folder : String) (entries : List FsEntry)
    (recursive : Bool) (ckpt : Option String)
    (h : listHasFailing recursive ckpt folder entries = true) :
    create_xml_document folder entries recursive ckpt = none ∧
    write_xml_document folder entries recursive ckpt = none := by
  have hw : folder_walk recursive ckpt folder false entries = none :=
    walk_failing recursive ckpt entries folder h
  have hcfe : create_folder_element folder entries recursive ckpt = none := by
    simp only [create_folder_element, walk_flag, hw]
  constructor
  · simp only [create_xml_document, hcfe]
  · simp only [write_xml_document, create_xml_document, hcfe]

/-- Witness for the amended C2 on a one-file folder with malformed JSON. -/
theorem C2_json_failure_aborts_witness :
    create_xml_document "/b"
      [.file "bad.png" (some ⟨[("sd-metadata", "not json")], (2, 2)⟩)] true none = none ∧
    write_xml_document "/b"
      [.file "bad.png" (some ⟨[("sd-metadata", "not json")], (2, 2)⟩)] true none = none :=
  C2_json_failure_aborts "/b"
    [.file "bad.png" (some ⟨[("sd-metadata", "not json")], (2, 2)⟩)] true none (by rfl)

/-- C5 counterexample: the v.1.0 `create_dreams_file` has no existence
check; invoked when the metadata file is absent, `eltree.parse` raises and
the invocation fails instead of generating the file first. -/
theorem C5_missing_xml_fails :
    create_dreams_file none false = none ∧ create_dreams_file none true = none :=
  ⟨rfl, rfl⟩

/-- C5 amended (the v.0.6.1 variant's behaviour): `create_dreams_file`
checks whether metadata.xml exists and, when absent, generates it first
(with checkpoint `None`), then extracts the prompts from exactly the
generated document rather than failing. -/
theorem C5_legacy_autogenerates (folder : String) (entries : List FsEntry)
    (output : Option String) (doc : Element)
    (h : Legacy.create_xml_document folder entries none = some doc) :
    Legacy.create_dreams_file folder entries none output =
      Legacy.write_dreams (Legacy.extract_dreams doc) output := by
  simp [Legacy.create_dreams_file, h]

/-- Witness for the amended C5 on a one-PNG folder without metadata.xml. -/
theorem C5_legacy_autogenerates_witness :
    Legacy.create_dreams_file "/f" [.file "w.png" (some ⟨[], (3, 3)⟩)] none none =
      Legacy.write_dreams
        (Legacy.extract_dreams
          (Element.mk "metadata" [("software", "MetaDreams v.0.6.1")] none
            [Element.mk "image" [("filename", "w.png")] none
              [Element.mk "path" [] (some "/f/w.png") [],
               Element.mk "size" [] (some "(3, 3)") []]])) none :=
  C5_legacy_autogenerates "/f" [.file "w.png" (some ⟨[], (3, 3)⟩)] none _ (by rfl)

/-- C7: `parse_image_info` on the nested image value `"{'key': None}"`
returns the mapping `{"key": null}` without raising: single quotes are
replaced by double quotes and `None` by `null` before JSON decoding. -/
theorem C7_parse_image_info_normalizes :
    parse_image_info (Json.str "\x7b\x27key\x27: None\x7d") =
      some (some (Json.obj [("key", Json.null)])) := by rfl

/-- C10: `process_png_file` returns either `(None, None)` (open or decode
failed) or a pair whose metadata and size are both present; never exactly
one `None` component. -/
theorem C10_process_png_file_pairs (data : Option PngData) :
    process_png_file data = (none, none) ∨
      ∃ m s, process_png_file data = (some m, some s) := by
  cases data with
  | none => exact Or.inl rfl
  | some d => exact Or.inr ⟨d.info, d.size, rfl⟩

theorem walk_skip_corrupt (r : Bool) (ck : Option String) (f : String) (n : String)
    (post : List FsEntry) :
    ∀ pre : List FsEntry,
      folder_walk r ck f false (pre ++ FsEntry.file n none :: post) =
        folder_walk r ck f false (pre ++ post) := by
  intro pre
  induction pre with
  | nil =>
    simp only [List.nil_append, folder_walk]
    have hskip : folder_entry_elems r ck f false (.file n none) = some [] := by
      simp only [folder_entry_elems, Bool.false_eq_true, if_false, process_png_file]
      by_cases hp : sEndsWith (pathJoin f n) ".png" = true
      · rw [if_pos hp]
      · rw [if_neg hp]
    rw [hskip]
    cases folder_walk r ck f false post <;> simp
  | cons e pre ih =>
    simp only [List.cons_append, folder_walk, List.append_eq, ih]

/-- C8: a `.png`-named file whose open or decode fails (its data is absent)
is skipped: the folder element built with it present is exactly the one
built without it — no image element for it, the siblings processed, the run
not aborted. -/
theorem C8_corrupt_png_skipped (folder : String) (pre post : List FsEntry) (n : String)
    (recursive : Bool) (ckpt : Option String)
    (h : sEndsWith (pathJoin folder n) ".png" = true) :
    create_folder_element folder (pre ++ FsEntry.file n none :: post) recursive ckpt =
      create_folder_element folder (pre ++ post) recursive ckpt := by
  simp only [create_folder_element, is_folder_empty_append_cons, walk_flag]
  rw [walk_skip_corrupt recursive ckpt folder n post pre]

/-- Witness for C8: a corrupt `bad.png` between two healthy PNGs in `/h`. -/
theorem C8_corrupt_png_skipped_witness :
    create_folder_element "/h"
      ([.file "a.png" (some ⟨[], (1, 1)⟩)] ++ FsEntry.file "bad.png" none ::
        [.file "c.png" (some ⟨[], (1, 1)⟩)]) false none =
      create_folder_element "/h"
        ([.file "a.png" (some ⟨[], (1, 1)⟩)] ++ [.file "c.png" (some ⟨[], (1, 1)⟩)])
        false none :=
  C8_corrupt_png_skipped "/h" [.file "a.png" (some ⟨[], (1, 1)⟩)]
    [.file "c.png" (some ⟨[], (1, 1)⟩)] "bad.png" false none (by rfl)

theorem walk_no_png (ck : Option String) :
    ∀ (l : List FsEntry) (folder : String),
      listPngDeep folder l = 0 →
      folder_walk true ck folder false l = some (specFolderTreeList folder l) := by
  have H : ∀ n (l : List FsEntry), sizeOf l ≤ n → ∀ (folder : String),
      listPngDeep folder l = 0 →
      folder_walk true ck folder false l = some (specFolderTreeList folder l) := by
    intro n
    induction n with
    | zero =>
      intro l hl
      cases l with
      | nil => intro folder _; rfl
      | cons e rest => exfalso; cases e <;> simp at hl
    | succ n ih =>
      intro l hl folder h
      cases l with
      | nil => rfl
      | cons e rest =>
        have hrest : sizeOf rest ≤ n := by cases e <;> simp at hl <;> omega
        simp only [listPngDeep] at h
        have hz2 : listPngDeep folder rest = 0 := by omega
        have hz1 : entryPngDeep folder e = 0 := by omega
        simp only [folder_walk, specFolderTreeList]
        rw [ih rest hrest folder hz2]
        cases e with
        | file name data =>
          have hpng : ¬ sEndsWith (pathJoin folder name) ".png" = true := by
            intro hc
            simp [entryPngDeep, hc] at hz1
          simp [folder_entry_elems, hpng, specFolderTreeEntry]
        | dir name sub =>
          simp only [entryPngDeep] at hz1
          have hsub : sizeOf sub ≤ n := by simp at hl; omega
          have hw := ih sub hsub (pathJoin folder name) hz1
          simp only [folder_entry_elems, Bool.false_eq_true, if_false, if_pos rfl,
            walk_flag, hw, specFolderTreeEntry]
          simp
  exact fun l => H (sizeOf l) l (le_refl _)

/-- C9: in a recursive walk, a folder with zero PNG descendants (a
completely empty folder included) still produces its `<folder>` element —
the result is exactly the nested folder-skeleton tree, every PNG-free
subfolder contributing its element, and no error occurs (the empty case is
merely ignored). -/
theorem C9_pngless_folder_emitted (folder : String) (entries : List FsEntry)
    (ckpt : Option String) (h : listPngDeep folder entries = 0) :
    create_folder_element folder entries true ckpt =
      some (folder_element folder (specFolderTreeList folder entries)) := by
  simp only [create_folder_element, walk_flag, walk_no_png ckpt entries folder h]

/-- Witness for C9: folder `/i` holding one empty subfolder `b`. -/
theorem C9_pngless_folder_emitted_witness :
    create_folder_element "/i" [.dir "b" []] true none =
      some (folder_element "/i" (specFolderTreeList "/i" [.dir "b" []])) :=
  C9_pngless_folder_emitted "/i" [.dir "b" []] none (by rfl)

theorem listImageCount_zero (l : List Element) (h : ∀ e ∈ l, elemImageCount e = 0) :
    listImageCount l = 0 := by
  induction l with
  | nil => rfl
  | cons c cs ih =>
    simp only [listImageCount]
    rw [h c (List.mem_cons_self c cs), ih (fun e he => h e (List.mem_cons_of_mem c he))]

theorem listImageCount_append (xs ys : List Element) :
    listImageCount (xs ++ ys) = listImageCount xs + listImageCount ys := by
  induction xs with
  | nil => simp [listImageCount]
  | cons c cs ih => simp only [List.cons_append, listImageCount, List.append_eq, ih]; omega

theorem leaf_image_count (t : String) (a : List (String × String)) (x : Option String)
    (ht : ¬ t = "image") : elemImageCount (.mk t a x []) = 0 := by
  simp [elemImageCount, listImageCount, ht]

theorem sd_field_count (kv : String × Json) (ys : List Element)
    (hy : sd_field_elems kv = some ys) (hnc : sdFieldNoClash kv = true) :
    ∀ e ∈ ys, elemImageCount e = 0 := by
  by_cases hk : kv.1 = "image"
  · match hp : parse_image_info kv.2 with
    | some none =>
      simp only [sd_field_elems, hk, if_pos, hp, write_image_info, Option.some.injEq] at hy
      subst hy
      intro e he
      cases he
    | some (some (.obj f2)) =>
      simp only [sd_field_elems, hk, if_pos, hp, write_image_info, Option.some.injEq] at hy
      subst hy
      simp only [sdFieldNoClash, hk, if_pos, hp, List.all_eq_true] at hnc
      intro e he
      obtain ⟨f, hf, rfl⟩ := List.mem_map.mp he
      have hne := hnc f hf
      apply leaf_image_count
      simpa using hne
    | some (some .null) | some (some (.bool _)) | some (some (.num _))
    | some (some (.str _)) | some (some (.arr _)) =>
      simp only [sd_field_elems, hk, if_pos, hp, write_image_info] at hy
      exact Option.noConfusion hy
    | none =>
      simp only [sd_field_elems, hk, if_pos, hp] at hy
      exact Option.noConfusion hy
  · simp only [sd_field_elems, hk, if_neg, not_false_iff, Option.some.injEq] at hy
    subst hy
    simp only [sdFieldNoClash, hk, if_neg, not_false_iff] at hnc
    intro e he
    rw [List.mem_singleton] at he
    subst he
    apply leaf_image_count
    simpa using hnc

theorem meta_entry_count (ck : Option String) (kv : String × String) (xs : List Element)
    (hx : meta_entry_elems ck kv = some xs) (hnc : metaKeyNoClash kv = true) :
    ∀ e ∈ xs, elemImageCount e = 0 := by
  by_cases hk : kv.1 = "sd-metadata"
  · match hj : json_loads kv.2 with
    | some (.obj fields) =>
      match hf : flatMapOpt sd_field_elems fields with
      | some inner =>
        simp only [meta_entry_elems, hk, if_pos, hj, hf, Option.some.injEq] at hx
        subst hx
        simp only [metaKeyNoClash, hk, if_pos, hj, List.all_eq_true] at hnc
        intro e he
        rw [List.mem_singleton] at he
        subst he
        simp only [elemImageCount]
        have h0 : listImageCount (ckpt_elems ck ++ inner) = 0 := by
          apply listImageCount_zero
          intro e he
          rcases List.mem_append.mp he with h1 | h2
          · match ck with
            | none => cases h1
            | some c =>
              simp only [ckpt_elems] at h1
              by_cases hc : c = ""
              · simp [hc] at h1
              · simp only [hc, if_neg, not_false_iff, List.mem_singleton] at h1
                subst h1
                apply leaf_image_count
                decide
          · obtain ⟨f, hfm, ys, hys, hey⟩ := flatMapOpt_mem sd_field_elems fields inner hf e h2
            exact sd_field_count f ys hys (hnc f hfm) e hey
        rw [h0]
        simp
      | none =>
        simp only [meta_entry_elems, hk, if_pos, hj, hf] at hx
        exact Option.noConfusion hx
    | some .null | some (.bool _) | some (.num _) | some (.str _) | some (.arr _) =>
      simp only [meta_entry_elems, hk, if_pos, hj] at hx
      exact Option.noConfusion hx
    | none =>
      simp only [meta_entry_elems, hk, if_pos, hj] at hx
      exact Option.noConfusion hx
  · simp only [meta_entry_elems, hk, if_neg, not_false_iff, Option.some.injEq] at hx
    subst hx
    simp only [metaKeyNoClash, hk, if_neg, not_false_iff] at hnc
    intro e he
    rw [List.mem_singleton] at he
    subst he
    apply leaf_image_count
    simpa using hnc

theorem image_count_one (p : String) (m : List (String × String)) (sz : Nat × Nat)
    (ck : Option String) (e : Element) (h : create_image_element p m sz ck = some e)
    (hnc : m.all metaKeyNoClash = true) : elemImageCount e = 1 := by
  match hmc : flatMapOpt (meta_entry_elems ck) m with
  | some mc =>
    simp only [create_image_element, hmc, Option.some.injEq] at h
    subst h
    simp only [elemImageCount]
    rw [List.all_eq_true] at hnc
    have h0 : listImageCount
        (add_single_element "path" p :: add_single_element "size" (pyTupleStr sz) :: mc) = 0 := by
      apply listImageCount_zero
      intro e he
      simp only [List.mem_cons] at he
      rcases he with rfl | rfl | hm
      · apply leaf_image_count
        decide
      · apply leaf_image_count
        decide
      · obtain ⟨kv, hkv, xs, hxs, hex⟩ := flatMapOpt_mem (meta_entry_elems ck) m mc hmc e hm
        exact meta_entry_count ck kv xs hxs (hnc kv hkv) e hex
    rw [h0]
    simp
  | none =>
    simp only [create_image_element, hmc] at h
    exact Option.noConfusion h

theorem walk_count (r : Bool) (ck : Option String) :
    ∀ (l : List FsEntry) (folder : String) (kids : List Element),
      listPngsGood folder l = true → listNoClash l = true →
      folder_walk r ck folder false l = some kids →
      listImageCount kids =
        (if r = true then listPngDeep folder l else pngCountTop folder l) := by
  have H : ∀ n (l : List FsEntry), sizeOf l ≤ n → ∀ (folder : String) (kids : List Element),
      listPngsGood folder l = true → listNoClash l = true →
      folder_walk r ck folder false l = some kids →
      listImageCount kids =
        (if r = true then listPngDeep folder l else pngCountTop folder l) := by
    intro n
    induction n with
    | zero =>
      intro l hl
      cases l with
      | nil =>
        intro folder kids _ _ h
        simp only [folder_walk, Option.some.injEq] at h
        subst h
        cases r <;> rfl
      | cons e rest => exfalso; cases e <;> simp at hl
    | succ n ih =>
      intro l hl folder kids hgood hnc h
      cases l with
      | nil =>
        simp only [folder_walk, Option.some.injEq] at h
        subst h
        cases r <;> rfl
      | cons e rest =>
        have hrest : sizeOf rest ≤ n := by cases e <;> simp at hl <;> omega
        simp only [listPngsGood, Bool.and_eq_true] at hgood
        simp only [listNoClash, Bool.and_eq_true] at hnc
        simp only [folder_walk] at h
        match h1 : folder_entry_elems r ck folder false e,
              h2 : folder_walk r ck folder false rest with
        | some here, some cs =>
          rw [h1, h2] at h
          simp only [Option.some.injEq] at h
          subst h
          rw [listImageCount_append, ih rest hrest folder cs hgood.2 hnc.2 h2]
          have hhere : listImageCount here =
              (if r = true then entryPngDeep folder e
               else match e with
                    | .file m _ => if sEndsWith (pathJoin folder m) ".png" then 1 else 0
                    | .dir _ _ => 0) := by
            cases e with
            | file name data =>
              simp only [folder_entry_elems, Bool.false_eq_true, if_false] at h1
              by_cases hpng : sEndsWith (pathJoin folder name) ".png" = true
              · rw [if_pos hpng] at h1
                have hds : data.isSome = true := by
                  have := hgood.1
                  simp only [entryPngsGood, hpng, Bool.or_eq_true] at this
                  simpa using this
                match data with
                | some pd =>
                  simp only [process_png_file] at h1
                  match himg : create_image_element (pathJoin folder name) pd.info pd.size ck with
                  | some ie =>
                    rw [himg] at h1
                    simp only [Option.some.injEq] at h1
                    subst h1
                    have hnc1 : pd.info.all metaKeyNoClash = true := by
                      have := hnc.1
                      simpa [entryNoClash, pngNoClash] using this
                    simp only [listImageCount]
                    rw [image_count_one (pathJoin folder name) pd.info pd.size ck ie himg hnc1]
                    simp [entryPngDeep, hpng]
                  | none =>
                    rw [himg] at h1
                    exact Option.noConfusion h1
              · rw [if_neg hpng] at h1
                simp only [Option.some.injEq] at h1
                subst h1
                simp only [Bool.not_eq_true] at hpng
                simp [listImageCount, entryPngDeep, hpng]
            | dir name sub =>
              simp only [folder_entry_elems, Bool.false_eq_true, if_false] at h1
              by_cases hr : r = true
              · rw [if_pos hr] at h1
                match hw : folder_walk r ck (pathJoin folder name) (is_folder_empty sub) sub with
                | some subkids =>
                  rw [hw] at h1
                  simp only [Option.some.injEq] at h1
                  subst h1
                  rw [walk_flag] at hw
                  have hsub : sizeOf sub ≤ n := by simp at hl; omega
                  have hsg : listPngsGood (pathJoin folder name) sub = true := by
                    have := hgood.1
                    simpa [entryPngsGood] using this
                  have hsnc : listNoClash sub = true := by
                    have := hnc.1
                    simpa [entryNoClash] using this
                  have hcount := ih sub hsub (pathJoin folder name) subkids hsg hsnc hw
                  rw [hr] at hcount
                  simp only [listImageCount, elemImageCount, folder_element]
                  rw [hcount]
                  simp [hr, entryPngDeep]
                | none =>
                  rw [hw] at h1
                  exact Option.noConfusion h1
              · rw [if_neg hr] at h1
                simp only [Option.some.injEq] at h1
                subst h1
                simp only [Bool.not_eq_true] at hr
                simp [listImageCount, hr]
          rw [hhere]
          cases e with
          | file name data =>
            by_cases hpng : sEndsWith (pathJoin folder name) ".png" = true <;>
              cases r <;> simp [listPngDeep, pngCountTop, entryPngDeep, hpng] <;> omega
          | dir name sub =>
            cases r <;> simp [listPngDeep, pngCountTop, entryPngDeep] <;> omega
        | some _, none =>
          rw [h1, h2] at h
          exact Option.noConfusion h
        | none, _ =>
          rw [h1] at h
          exact Option.noConfusion h
  exact fun l => H (sizeOf l) l (le_refl _)

/-- C4 counterexample: a folder holding a single well-formed PNG whose
metadata has the key `image` produces an XML document with two
`image`-tagged elements, not one element per PNG file. -/
theorem C4_image_count_counterexample :
    (create_xml_document "/e" [.file "x.png" (some ⟨[("image", "hi")], (1, 1)⟩)]
      false none).map elemImageCount = some 2 ∧
    pngCountTop "/e" [.file "x.png" (some ⟨[("image", "hi")], (1, 1)⟩)] = 1 := ⟨rfl, rfl⟩

/-- C4 amended: provided every `.png`-named file in the subtree is readable
and no metadata key (nor nested `sd-metadata` key) lowercases to `image`,
the number of `image`-tagged elements in the produced document equals the
number of `.png` files directly in the folder when recursion is off, and in
the whole subtree when it is on — in particular, with recursion off,
subdirectory images never appear. -/
theorem C4_image_count (folder : String) (entries : List FsEntry) (recursive : Bool)
    (ckpt : Option String) (doc : Element)
    (hgood : listPngsGood folder entries = true)
    (hnc : listNoClash entries = true)
    (h : create_xml_document folder entries recursive ckpt = some doc) :
    elemImageCount doc =
      (if recursive = true then listPngDeep folder entries
       else pngCountTop folder entries) := by
  match hfe : create_folder_element folder entries recursive ckpt with
  | some fe =>
    simp only [create_xml_document, hfe, Option.some.injEq] at h
    subst h
    match hw : folder_walk recursive ckpt folder (is_folder_empty entries) entries with
    | some kids =>
      simp only [create_folder_element, hw, Option.some.injEq] at hfe
      subst hfe
      rw [walk_flag] at hw
      have hcount := walk_count recursive ckpt entries folder kids hgood hnc hw
      simp only [elemImageCount, listImageCount, folder_element]
      rw [hcount]
      cases recursive <;> simp
    | none =>
      simp only [create_folder_element, hw] at hfe
      exact Option.noConfusion hfe
  | none =>
    simp only [create_xml_document, hfe] at h
    exact Option.noConfusion h

/-- Witness for the amended C4: one clean PNG, recursive run. -/
theorem C4_image_count_witness :
    elemImageCount
      (Element.mk "metadata" [("software", "MetaDreams v.1.0")] none
        [Element.mk "folder" [("name", "j"), ("path", "/j")] none
          [Element.mk "image" [("filename", "ok.png")] none
            [Element.mk "path" [] (some "/j/ok.png") [],
             Element.mk "size" [] (some "(1, 1)") [],
             Element.mk "dream" [] (some "d") []]]]) =
      (if true = true then listPngDeep "/j" [.file "ok.png" (some ⟨[("dream", "d")], (1, 1)⟩)]
       else pngCountTop "/j" [.file "ok.png" (some ⟨[("dream", "d")], (1, 1)⟩)]) :=
  C4_image_count "/j" [.file "ok.png" (some ⟨[("dream", "d")], (1, 1)⟩)] true none _
    (by rfl) (by rfl) (by rfl)

theorem image_tag (p : String) (m : List (String × String)) (sz : Nat × Nat)
    (ck : Option String) (e : Element) (h : create_image_element p m sz ck = some e) :
    e.tag = "image" := by
  match hmc : flatMapOpt (meta_entry_elems ck) m with
  | some mc =>
    simp only [create_image_element, hmc, Option.some.injEq] at h
    subst h
    rfl
  | none =>
    simp only [create_image_element, hmc] at h
    exact Option.noConfusion h

theorem image_shape_holds (p : String) (m : List (String × String)) (sz : Nat × Nat)
    (ck : Option String) (e : Element) (h : create_image_element p m sz ck = some e) :
    imageShape e = true := by
  match hmc : flatMapOpt (meta_entry_elems ck) m with
  | some mc =>
    simp only [create_image_element, hmc, Option.some.injEq] at h
    subst h
    have hrest : ∀ c ∈ mc, (isFlatChild c || sdBlock c) = true := by
      intro c hc
      obtain ⟨kv, hkv, xs, hxs, hcx⟩ := flatMapOpt_mem (meta_entry_elems ck) m mc hmc c hc
      by_cases hk : kv.1 = "sd-metadata"
      · obtain ⟨kids, rfl, hleaf⟩ := meta_entry_sd ck kv xs hk hxs
        rw [List.mem_singleton] at hcx
        subst hcx
        have hsd : sdBlock (Element.mk "sd-metadata" [] none kids) = true := by
          simp only [sdBlock, Element.tag, Element.children, Bool.and_eq_true, List.all_eq_true]
          refine ⟨by decide, ?_⟩
          intro x hx
          obtain ⟨t, a, tx, rfl⟩ := hleaf x hx
          simp [isFlatChild, Element.children]
        simp [hsd]
      · rw [meta_entry_nonsd ck kv hk] at hxs
        have hxs2 : xs = [add_single_element kv.1 kv.2] := by simpa using hxs.symm
        subst hxs2
        rw [List.mem_singleton] at hcx
        subst hcx
        simp [isFlatChild, add_single_element, Element.children]
    simp only [imageShape, Element.tag, Element.attrs, Element.children, add_single_element,
      Element.text, Bool.and_eq_true, List.all_eq_true, Option.isSome_some]
    exact ⟨⟨by decide, by decide⟩,
      ⟨⟨⟨⟨⟨by decide, trivial⟩, by decide⟩, by decide⟩, trivial⟩, by decide⟩, hrest⟩
  | none =>
    simp only [create_image_element, hmc] at h
    exact Option.noConfusion h

theorem folderKidsShape_append (xs ys : List Element) :
    folderKidsShape (xs ++ ys) = (folderKidsShape xs && folderKidsShape ys) := by
  induction xs with
  | nil => simp [folderKidsShape]
  | cons c cs ih =>
    simp only [List.cons_append, folderKidsShape, List.append_eq, ih, Bool.and_assoc]

theorem elemSkelKids_append (xs ys : List Element) :
    elemSkelKids (xs ++ ys) = elemSkelKids xs ++ elemSkelKids ys := by
  induction xs with
  | nil => simp [elemSkelKids]
  | cons c cs ih =>
    simp only [List.cons_append, elemSkelKids, List.append_eq, ih, List.append_assoc]

theorem walk_shape (r : Bool) (ck : Option String) :
    ∀ (l : List FsEntry) (folder : String) (kids : List Element),
      folder_walk r ck folder false l = some kids → folderKidsShape kids = true := by
  have H : ∀ n (l : List FsEntry), sizeOf l ≤ n → ∀ (folder : String) (kids : List Element),
      folder_walk r ck folder false l = some kids → folderKidsShape kids = true := by
    intro n
    induction n with
    | zero =>
      intro l hl
      cases l with
      | nil =>
        intro folder kids h
        simp only [folder_walk, Option.some.injEq] at h
        subst h
        rfl
      | cons e rest => exfalso; cases e <;> simp at hl
    | succ n ih =>
      intro l hl folder kids h
      cases l with
      | nil =>
        simp only [folder_walk, Option.some.injEq] at h
        subst h
        rfl
      | cons e rest =>
        have hrest : sizeOf rest ≤ n := by cases e <;> simp at hl <;> omega
        simp only [folder_walk] at h
        match h1 : folder_entry_elems r ck folder false e,
              h2 : folder_walk r ck folder false rest with
        | some here, some cs =>
          rw [h1, h2] at h
          simp only [Option.some.injEq] at h
          subst h
          rw [folderKidsShape_append]
          have hcs := ih rest hrest folder cs h2
          have hhere : folderKidsShape here = true := by
            cases e with
            | file name data =>
              simp only [folder_entry_elems, Bool.false_eq_true, if_false] at h1
              by_cases hpng : sEndsWith (pathJoin folder name) ".png" = true
              · rw [if_pos hpng] at h1
                match data with
                | none =>
                  simp only [process_png_file, Option.some.injEq] at h1
                  subst h1
                  rfl
                | some pd =>
                  simp only [process_png_file] at h1
                  match himg : create_image_element (pathJoin folder name) pd.info pd.size ck with
                  | some ie =>
                    rw [himg] at h1
                    simp only [Option.some.injEq] at h1
                    subst h1
                    have hshape := image_shape_holds (pathJoin folder name) pd.info pd.size ck ie himg
                    simp [folderKidsShape, hshape]
                  | none =>
                    rw [himg] at h1
                    exact Option.noConfusion h1
              · rw [if_neg hpng] at h1
                simp only [Option.some.injEq] at h1
                subst h1
                rfl
            | dir name sub =>
              simp only [folder_entry_elems, Bool.false_eq_true, if_false] at h1
              by_cases hr : r = true
              · rw [if_pos hr] at h1
                match hw : folder_walk r ck (pathJoin folder name) (is_folder_empty sub) sub with
                | some subkids =>
                  rw [hw] at h1
                  simp only [Option.some.injEq] at h1
                  subst h1
                  rw [walk_flag] at hw
                  have hsub : sizeOf sub ≤ n := by simp at hl; omega
                  have hsk := ih sub hsub (pathJoin folder name) subkids hw
                  simp [folderKidsShape, folder_element, folderShape, Element.tag, hsk]
                | none =>
                  rw [hw] at h1
                  exact Option.noConfusion h1
              · rw [if_neg hr] at h1
                simp only [Option.some.injEq] at h1
                subst h1
                rfl
          rw [hhere, hcs]
          rfl
        | some _, none =>
          rw [h1, h2] at h
          exact Option.noConfusion h
        | none, _ =>
          rw [h1] at h
          exact Option.noConfusion h
  exact fun l => H (sizeOf l) l (le_refl _)

theorem walk_skel (ck : Option String) :
    ∀ (l : List FsEntry) (folder : String) (kids : List Element),
      folder_walk true ck folder false l = some kids →
      elemSkelKids kids = fsSkelList folder l := by
  have H : ∀ n (l : List FsEntry), sizeOf l ≤ n → ∀ (folder : String) (kids : List Element),
      folder_walk true ck folder false l = some kids →
      elemSkelKids kids = fsSkelList folder l := by
    intro n
    induction n with
    | zero =>
      intro l hl
      cases l with
      | nil =>
        intro folder kids h
        simp only [folder_walk, Option.some.injEq] at h
        subst h
        rfl
      | cons e rest => exfalso; cases e <;> simp at hl
    | succ n ih =>
      intro l hl folder kids h
      cases l with
      | nil =>
        simp only [folder_walk, Option.some.injEq] at h
        subst h
        rfl
      | cons e rest =>
        have hrest : sizeOf rest ≤ n := by cases e <;> simp at hl <;> omega
        simp only [folder_walk] at h
        match h1 : folder_entry_elems true ck folder false e,
              h2 : folder_walk true ck folder false rest with
        | some here, some cs =>
          rw [h1, h2] at h
          simp only [Option.some.injEq] at h
          subst h
          rw [elemSkelKids_append, ih rest hrest folder cs h2]
          have hhere : elemSkelKids here = fsSkelEntry folder e := by
            cases e with
            | file name data =>
              simp only [folder_entry_elems, Bool.false_eq_true, if_false] at h1
              by_cases hpng : sEndsWith (pathJoin folder name) ".png" = true
              · rw [if_pos hpng] at h1
                match data with
                | none =>
                  simp only [process_png_file, Option.some.injEq] at h1
                  subst h1
                  rfl
                | some pd =>
                  simp only [process_png_file] at h1
                  match himg : create_image_element (pathJoin folder name) pd.info pd.size ck with
                  | some ie =>
                    rw [himg] at h1
                    simp only [Option.some.injEq] at h1
                    subst h1
                    have htag := image_tag (pathJoin folder name) pd.info pd.size ck ie himg
                    simp [elemSkelKids, htag, fsSkelEntry]
                  | none =>
                    rw [himg] at h1
                    exact Option.noConfusion h1
              · rw [if_neg hpng] at h1
                simp only [Option.some.injEq] at h1
                subst h1
                rfl
            | dir name sub =>
              simp only [folder_entry_elems] at h1
              rw [if_neg (by decide : ¬ (false : Bool) = true)] at h1
              rw [if_pos trivial] at h1
              match hw : folder_walk true ck (pathJoin folder name) (is_folder_empty sub) sub with
              | some subkids =>
                rw [hw] at h1
                simp only [Option.some.injEq] at h1
                subst h1
                rw [walk_flag] at hw
                have hsub : sizeOf sub ≤ n := by simp at hl; omega
                have hsk := ih sub hsub (pathJoin folder name) subkids hw
                simp only [elemSkelKids, folder_element, Element.tag, if_pos rfl, elemSkel,
                  fsSkelEntry, hsk]
                simp [List.find?]
              | none =>
                rw [hw] at h1
                exact Option.noConfusion h1
          rw [hhere]
          rfl
        | some _, none =>
          rw [h1, h2] at h
          exact Option.noConfusion h
        | none, _ =>
          rw [h1] at h
          exact Option.noConfusion h
  exact fun l => H (sizeOf l) l (le_refl _)

/-- C3: for every run producing a document, the written metadata.xml text is
the XML declaration followed by the rendered tree; the root is
`<metadata software="MetaDreams v.1.0">` with no text and exactly one child,
a folder element named after the input folder whose subtree is
well-shaped — every node a `<folder name=.. path=..>` or an
`<image filename=..>` with `<path>` and `<size>` leaves first, then
flattened metadata fields, optionally inside an `<sd-metadata>` block — and,
when recursion is on, the folder elements mirror the directory tree. -/
theorem C3_xml_document_shape (folder : String) (entries : List FsEntry) (recursive : Bool)
    (ckpt : Option String) (doc : Element)
    (h : create_xml_document folder entries recursive ckpt = some doc) :
    write_xml_document folder entries recursive ckpt =
      some (xmlDeclaration ++ renderElement "" doc) ∧
    doc.tag = "metadata" ∧
    doc.attrs = [("software", "MetaDreams " ++ metadreams_version)] ∧
    doc.text = none ∧
    ∃ F, doc.children = [F] ∧
      F.tag = "folder" ∧
      F.attrs = [("name", basename folder), ("path", folder)] ∧
      folderShape F = true ∧
      (recursive = true → elemSkel F = fsSkel folder entries) := by
  match hfe : create_folder_element folder entries recursive ckpt with
  | some fe =>
    simp only [create_xml_document, hfe, Option.some.injEq] at h
    subst h
    match hw : folder_walk recursive ckpt folder (is_folder_empty entries) entries with
    | some kids =>
      simp only [create_folder_element, hw, Option.some.injEq] at hfe
      subst hfe
      rw [walk_flag] at hw
      refine ⟨?_, rfl, rfl, rfl, folder_element folder kids, rfl, rfl, rfl, ?_, ?_⟩
      · simp only [write_xml_document, create_xml_document, create_folder_element,
          walk_flag, hw]
      · have hks := walk_shape recursive ckpt entries folder kids hw
        simp [folderShape, folder_element, Element.tag, hks]
      · intro hr
        subst hr
        have hsk := walk_skel ckpt entries folder kids hw
        simp only [folder_element, elemSkel, fsSkel, hsk]
        simp [List.find?]
    | none =>
      simp only [create_folder_element, hw] at hfe
      exact Option.noConfusion hfe
  | none =>
    simp only [create_xml_document, hfe] at h
    exact Option.noConfusion h

/-- Witness for C3: a recursive run over `/d` holding one PNG and one
subfolder with a PNG. -/
theorem C3_xml_document_shape_witness :
    write_xml_document "/d"
      [.file "x.png" (some ⟨[], (1, 1)⟩), .dir "s" [.file "y.png" (some ⟨[], (2, 2)⟩)]]
      true none =
      some (xmlDeclaration ++ renderElement ""
        (Element.mk "metadata" [("software", "MetaDreams v.1.0")] none
          [Element.mk "folder" [("name", "d"), ("path", "/d")] none
            [Element.mk "image" [("filename", "x.png")] none
              [Element.mk "path" [] (some "/d/x.png") [],
               Element.mk "size" [] (some "(1, 1)") []],
             Element.mk "folder" [("name", "s"), ("path", "/d/s")] none
              [Element.mk "image" [("filename", "y.png")] none
                [Element.mk "path" [] (some "/d/s/y.png") [],
                 Element.mk "size" [] (some "(2, 2)") []]]]])) ∧
    (Element.mk "metadata" [("software", "MetaDreams v.1.0")] none
      [Element.mk "folder" [("name", "d"), ("path", "/d")] none
        [Element.mk "image" [("filename", "x.png")] none
          [Element.mk "path" [] (some "/d/x.png") [],
           Element.mk "size" [] (some "(1, 1)") []],
         Element.mk "folder" [("name", "s"), ("path", "/d/s")] none
          [Element.mk "image" [("filename", "y.png")] none
            [Element.mk "path" [] (some "/d/s/y.png") [],
             Element.mk "size" [] (some "(2, 2)") []]]]]).tag = "metadata" ∧
    (Element.mk "metadata" [("software", "MetaDreams v.1.0")] none
      [Element.mk "folder" [("name", "d"), ("path", "/d")] none
        [Element.mk "image" [("filename", "x.png")] none
          [Element.mk "path" [] (some "/d/x.png") [],
           Element.mk "size" [] (some "(1, 1)") []],
         Element.mk "folder" [("name", "s"), ("path", "/d/s")] none
          [Element.mk "image" [("filename", "y.png")] none
            [Element.mk "path" [] (some "/d/s/y.png") [],
             Element.mk "size" [] (some "(2, 2)") []]]]]).attrs =
      [("software", "MetaDreams " ++ metadreams_version)] ∧
    (Element.mk "metadata" [("software", "MetaDreams v.1.0")] none
      [Element.mk "folder" [("name", "d"), ("path", "/d")] none
        [Element.mk "image" [("filename", "x.png")] none
          [Element.mk "path" [] (some "/d/x.png") [],
           Element.mk "size" [] (some "(1, 1)") []],
         Element.mk "folder" [("name", "s"), ("path", "/d/s")] none
          [Element.mk "image" [("filename", "y.png")] none
            [Element.mk "path" [] (some "/d/s/y.png") [],
             Element.mk "size" [] (some "(2, 2)") []]]]]).text = none ∧
    ∃ F, (Element.mk "metadata" [("software", "MetaDreams v.1.0")] none
      [Element.mk "folder" [("name", "d"), ("path", "/d")] none
        [Element.mk "image" [("filename", "x.png")] none
          [Element.mk "path" [] (some "/d/x.png") [],
           Element.mk "size" [] (some "(1, 1)") []],
         Element.mk "folder" [("name", "s"), ("path", "/d/s")] none
          [Element.mk "image" [("filename", "y.png")] none
            [Element.mk "path" [] (some "/d/s/y.png") [],
             Element.mk "size" [] (some "(2, 2)") []]]]]).children = [F] ∧
      F.tag = "folder" ∧
      F.attrs = [("name", basename "/d"), ("path", "/d")] ∧
      folderShape F = true ∧
      (true = true → elemSkel F = fsSkel "/d"
        [.file "x.png" (some ⟨[], (1, 1)⟩), .dir "s" [.file "y.png" (some ⟨[], (2, 2)⟩)]]) :=
  C3_xml_document_shape "/d"
    [.file "x.png" (some ⟨[], (1, 1)⟩), .dir "s" [.file "y.png" (some ⟨[], (2, 2)⟩)]]
    true none _ (by rfl)

